import Mathlib

/-!
# A verification development for the thread pool of `threadpool.h` / `threadpool.cpp`

The C++ sources are embedded shallowly:

* `Any`, `Semaphore`, `Result`, `Task`, `Thread` and `ThreadPool` become structures,
  their member functions become functions on an explicit `World`;
* a pointer is an index (`Result*` is a position in the list of `Result` objects,
  `std::shared_ptr<Task>` is the identity of a task object);
* `int` / `std::atomic_int` members are `Int`; `size_t` and `unsigned long long` are
  `Nat` reduced modulo `2 ^ 64`;
* an operation whose C++ behaviour is undefined (dereferencing a null
  `std::unique_ptr`) returns `none`;
* threads are interleaved: every member function called by the user and every piece of
  `ThreadPool::threadFunc` between two suspension points is one atomic step.
-/

namespace TP

/-! ## `class Any` (threadpool.h, lines 20-71) -/

/-- Codes for the C++ types a value held by an `Any` may have: the two types the
sources themselves store (`const char*` in `Result::get`, `unsigned long long` in
`MyTask::run`) and an arbitrary family `U` of further types. -/
inductive CppType (U : Type) where
  | constCharPtr : CppType U
  | unsignedLongLong : CppType U
  | user (u : U) : CppType U
  deriving DecidableEq

/-- Values of the C++ type with the given code. -/
def CppType.El {U : Type} (UEl : U → Type) : CppType U → Type
  | .constCharPtr => String
  | .unsignedLongLong => Nat
  | .user u => UEl u

/-- The member `std::unique_ptr<Base> base_`: `none` is the null pointer, `some ⟨S, v⟩`
points to a `Derive<S>` object whose `data_` is `v`. -/
structure Any (U : Type) (UEl : U → Type) where
  base_ : Option (Sigma (CppType.El UEl))

section AnyOps

variable {U : Type} {UEl : U → Type}

/-- The defaulted constructor `Any() = default`: `base_` is null. -/
def Any.empty : Any U UEl := ⟨none⟩

/-- The converting constructor `template<typename T> Any(T data)`:
`base_(std::make_unique<Derive<T>>(data))`. -/
def Any.of (S : CppType U) (v : S.El UEl) : Any U UEl := ⟨some ⟨S, v⟩⟩

/-- The member `template<typename T> T cast_()`: `dynamic_cast<Derive<T>*>(base_.get())`
is null for a null `base_` and for an object of another class `Derive<S>`; then the
function throws the C string `"type is unmatch!"`; otherwise it returns `pd->data_`. -/
def Any.cast_ [DecidableEq U] (a : Any U UEl) (T : CppType U) : Except String (T.El UEl) :=
  match a.base_ with
  | none => .error "type is unmatch!"
  | some ⟨S, v⟩ => if h : S = T then .ok (h ▸ v) else .error "type is unmatch!"

end AnyOps

/-! ## `class Semaphore` (threadpool.h, lines 78-116) -/

/-- The data members of `Semaphore` that carry state. -/
structure Semaphore where
  resLimit_ : Int
  isExit_ : Bool
  deriving DecidableEq

/-- The constructor `Semaphore(int limit = 0)`. -/
def Semaphore.new (limit : Int) : Semaphore := { resLimit_ := limit, isExit_ := false }

/-- The member `wait()`: returns at once when `isExit_`; otherwise it needs
`resLimit_ > 0` and consumes one unit. `none`: the caller stays blocked in
`cond_.wait`. -/
def Semaphore.wait (s : Semaphore) : Option Semaphore :=
  if s.isExit_ then some s
  else if s.resLimit_ > 0 then some { s with resLimit_ := s.resLimit_ - 1 }
  else none

/-- The member `post()`. -/
def Semaphore.post (s : Semaphore) : Semaphore :=
  if s.isExit_ then s else { s with resLimit_ := s.resLimit_ + 1 }

/-! ## `class Task`, `class Result` (threadpool.h, lines 126-162) -/

/-- A `std::shared_ptr<Task>`: the identity of the task object it points to. -/
abbrev Task := Nat

/-- A task object: the member `Result* result_` (`none` is `nullptr`, `some a` is the
`Result` object at address `a`) and the value its overridden `run()` produces. -/
structure TaskObj (U : Type) (UEl : U → Type) where
  result_ : Option Nat
  run : Any U UEl

/-- The data members of `Result`. -/
structure Result (U : Type) (UEl : U → Type) where
  any_ : Any U UEl
  sem_ : Semaphore
  task_ : Task
  isValid_ : Bool

/-! ## `class Thread`, `class ThreadPool` (threadpool.h, lines 166-261) -/

/-- The constant `TASK_MAX_THRESHHOLD = INT32_MAX`. -/
def TASK_MAX_THRESHHOLD : Int := 2147483647

/-- The constant `THREAD_MAX_THRESHHOLD`. -/
def THREAD_MAX_THRESHHOLD : Int := 10

/-- The constant `THREAD_MAX_IDLE_TIME`, in seconds. -/
def THREAD_MAX_IDLE_TIME : Int := 10

/-- Ticks of `std::chrono::high_resolution_clock` in one second (the clock of the usual
standard libraries counts nanoseconds). -/
def TICKS_PER_SECOND : Int := 1000000000

/-- The enumeration `PoolMode`; `threadpool.cpp` spells the second value `MODE_CACHE`. -/
inductive PoolMode where
  | MODE_FIXED
  | MODE_CACHED
  deriving DecidableEq

/-- A `Thread` object: its `threadId_` (its `func_` is always `ThreadPool::threadFunc`
bound to the pool). -/
structure Thread where
  threadId_ : Int
  deriving DecidableEq

/-- The member `std::unordered_map<int, std::unique_ptr<Thread>> threads_`: the entries
of the map; the value `none` is a null `unique_ptr`. -/
abbrev Registry := List (Int × Option Thread)

/-- Lookup of a key, `threads_.find(k)`: `none` when the key is missing. -/
def Registry.lookup (m : Registry) (k : Int) : Option (Option Thread) :=
  (m.find? (fun e => e.1 == k)).map (fun e => e.2)

/-- The call `threads_.emplace(k, std::move(ptr))`: nothing is inserted when the key is
already present. -/
def Registry.emplace (m : Registry) (k : Int) (ptr : Thread) : Registry :=
  match m.lookup k with
  | some _ => m
  | none => m ++ [(k, some ptr)]

/-- The call `threads_.erase(k)`. -/
def Registry.erase (m : Registry) (k : Int) : Registry :=
  m.filter (fun e => e.1 != k)

/-- The expression `threads_[k]`: a missing key is inserted with a null pointer. The
result is the map afterwards and the pointer found. -/
def Registry.index (m : Registry) (k : Int) : Registry × Option Thread :=
  match m.lookup k with
  | some p => (m, p)
  | none => (m ++ [(k, none)], none)

/-- The data members of `ThreadPool` (the mutex and the condition variables are part of
the step semantics below). -/
structure ThreadPool where
  threads_ : Registry
  initThreadSize_ : Int
  curThreadSize_ : Int
  idleThreadSize_ : Int
  threadSizeThreshHold_ : Int
  taskQueue_ : List Task
  taskSize_ : Int
  taskQueMaxThreshHold_ : Int
  poolMode_ : PoolMode
  isPoolRunning_ : Bool

/-- The three condition variables of the pool. -/
inductive CondVar where
  | notFull
  | notEmpty
  | exitCond
  deriving DecidableEq

/-- Where an operating-system thread running `ThreadPool::threadFunc` stands:
`entry` before line 224, `loopTest` at the test of `while (isPoolRunning_)`,
`locked` inside the critical section at the test of `while (taskQueue_.size() == 0)`,
`executing t` after the critical section with the dequeued task `t`,
`exited` after `return`. -/
inductive Pc where
  | entry
  | loopTest
  | locked
  | executing (task : Task)
  | exited
  deriving DecidableEq

/-- An operating-system thread created by `Thread::start`: the argument `threadId` of
`threadFunc`, its local `lastTime` (clock ticks) and its program point. -/
structure Worker where
  threadId : Int
  lastTime : Int
  pc : Pc
  deriving DecidableEq

/-- Progress of `ThreadPool::~ThreadPool`. -/
inductive DtorPc where
  | notCalled
  | waiting
  | returned
  deriving DecidableEq

/-- The state of the program: the pool object, the static `Thread::generateId_`, the
threads running `threadFunc`, the task objects, the `Result` objects (a `Result*` is an
index of `results`; the caller keeps every `Result` it received alive), the calls of
`notify_all` made so far (latest last) and the progress of the destructor. -/
structure World (U : Type) (UEl : U → Type) where
  pool : ThreadPool
  generateId_ : Int
  workers : List Worker
  tasks : Task → TaskObj U UEl
  results : List (Result U UEl)
  signals : List CondVar
  dtor : DtorPc

section Ops

variable {U : Type} {UEl : U → Type}

/-- The conversion `(size_t)x` of an `int`. -/
def toSizeT (x : Int) : Nat := (x % 2 ^ 64).toNat

/-- The constructor `Result::Result(sp, isValid)` building a new `Result` object: the
object is placed at the next free address and `task_->setResult(this)` stores that
address in the task. Returns the world and the address. -/
def Result.create (w : World U UEl) (sp : Task) (isValid : Bool) : World U UEl × Nat :=
  ({ w with
      results := w.results ++
        [{ any_ := Any.empty, sem_ := Semaphore.new 0, task_ := sp, isValid_ := isValid }]
      tasks := Function.update w.tasks sp { w.tasks sp with result_ := some w.results.length } },
   w.results.length)

/-- The member `Result::setVal(any)`. -/
def Result.setVal (r : Result U UEl) (any : Any U UEl) : Result U UEl :=
  { r with any_ := any, sem_ := r.sem_.post }

/-- The member `Result::get()`: the value returned and the object afterwards (`any_` is
moved from); `none` when the caller blocks in `sem_.wait()`. -/
def Result.get (r : Result U UEl) : Option (Any U UEl × Result U UEl) :=
  if !r.isValid_ then some (Any.of .constCharPtr "", r)
  else
    match r.sem_.wait with
    | none => none
    | some s => some (r.any_, { r with sem_ := s, any_ := Any.empty })

/-- The member `Task::exec()`: `if (result_) result_->setVal(run());`. -/
def Task.exec (w : World U UEl) (task : Task) : World U UEl :=
  match (w.tasks task).result_ with
  | none => w
  | some a => { w with results := w.results.modify (fun r => r.setVal (w.tasks task).run) a }

/-- The constructor `Thread::Thread(func)`: `threadId_(generateId_ ++)`. -/
def Thread.create (w : World U UEl) : World U UEl × Thread :=
  ({ w with generateId_ := w.generateId_ + 1 }, { threadId_ := w.generateId_ })

/-- The member `Thread::start()`: a detached thread begins `func_(threadId_)`. -/
def Thread.start (w : World U UEl) (t : Thread) : World U UEl :=
  { w with workers := w.workers ++ [{ threadId := t.threadId_, lastTime := 0, pc := .entry }] }

/-- The constructor `ThreadPool::ThreadPool()`. -/
def ThreadPool.new : ThreadPool :=
  { threads_ := []
    initThreadSize_ := 10
    taskSize_ := 0
    curThreadSize_ := 0
    idleThreadSize_ := 0
    taskQueMaxThreshHold_ := TASK_MAX_THRESHHOLD
    threadSizeThreshHold_ := THREAD_MAX_THRESHHOLD
    poolMode_ := .MODE_FIXED
    isPoolRunning_ := false
    taskQueue_ := [] }

/-- A program that has just constructed its pool: `g` is the value of the static
`Thread::generateId_` at that moment, `tasks` are the task objects of the caller. -/
def World.construct (g : Int) (tasks : Task → TaskObj U UEl) : World U UEl :=
  { pool := ThreadPool.new
    generateId_ := g
    workers := []
    tasks := tasks
    results := []
    signals := []
    dtor := .notCalled }

/-- A call `cv.notify_all()`, recorded. -/
def World.notify (w : World U UEl) (c : CondVar) : World U UEl :=
  { w with signals := w.signals ++ [c] }

/-- The call `exitCond_.notify_all()`: a destructor blocked in
`exitCond_.wait(lock, pred)` wakes up, evaluates `threads_.size() == 0` and returns when
it holds. -/
def World.notifyExit (w : World U UEl) : World U UEl :=
  { w with
      signals := w.signals ++ [CondVar.exitCond]
      dtor := if w.dtor = .waiting ∧ w.pool.threads_.length = 0 then .returned else w.dtor }

/-- The member `checkRunningState()`. -/
def checkRunningState (w : World U UEl) : Bool := w.pool.isPoolRunning_

/-- The member `setMode(mode)`. -/
def setMode (w : World U UEl) (mode : PoolMode) : World U UEl :=
  if checkRunningState w then w
  else { w with pool := { w.pool with poolMode_ := mode } }

/-- The member `setTaskQueMaxThreshHold(threshhold)`. -/
def setTaskQueMaxThreshHold (w : World U UEl) (threshhold : Int) : World U UEl :=
  if checkRunningState w then w
  else { w with pool := { w.pool with taskQueMaxThreshHold_ := threshhold } }

/-- The member `setThreadSizeThreshHold(threshhold)`. -/
def setThreadSizeThreshHold (w : World U UEl) (threshhold : Int) : World U UEl :=
  if checkRunningState w then w
  else if w.pool.poolMode_ = .MODE_CACHED then
    { w with pool := { w.pool with threadSizeThreshHold_ := threshhold } }
  else w

/-- The part of `submitTask` that creates a thread in cached mode (lines 171-189).
`none`: `threads_[threadId]` holds a null pointer and `->start()` dereferences it. -/
def submitTask_grow (w : World U UEl) : Option (World U UEl) :=
  if w.pool.poolMode_ = .MODE_CACHED ∧ w.pool.taskSize_ > w.pool.idleThreadSize_ ∧
      w.pool.curThreadSize_ < w.pool.threadSizeThreshHold_ then
    let (w1, ptr) := Thread.create w
    let threadId := ptr.threadId_
    let (m, entry) := (w1.pool.threads_.emplace threadId ptr).index threadId
    match entry with
    | none => none
    | some th =>
      let w2 := Thread.start { w1 with pool := { w1.pool with threads_ := m } } th
      some { w2 with pool := { w2.pool with
                curThreadSize_ := w2.pool.curThreadSize_ + 1
                idleThreadSize_ := w2.pool.idleThreadSize_ + 1 } }
  else some w

/-- The member `submitTask(sp)`, decided at the moment `notFull_.wait_for` returns: the
predicate `taskQueue_.size() < (size_t)taskQueMaxThreshHold_` holds (the task is
accepted) or the second has elapsed with the predicate still false (the task is
rejected). Returns the world and the address of the `Result` built in the caller. -/
def submitTask (w : World U UEl) (sp : Task) : Option (World U UEl × Nat) :=
  if w.pool.taskQueue_.length < toSizeT w.pool.taskQueMaxThreshHold_ then
    let w1 := ({ w with pool := { w.pool with
                  taskQueue_ := w.pool.taskQueue_ ++ [sp]
                  taskSize_ := w.pool.taskSize_ + 1 } }).notify .notEmpty
    match submitTask_grow w1 with
    | none => none
    | some w2 => some (Result.create w2 sp true)
  else some (Result.create w sp false)

/-- The first loop of `start` (lines 204-210), `k` iterations left. -/
def start_createLoop : Nat → World U UEl → World U UEl
  | 0, w => w
  | k + 1, w =>
    let (w1, ptr) := Thread.create w
    start_createLoop k
      { w1 with pool := { w1.pool with threads_ := w1.pool.threads_.emplace ptr.threadId_ ptr } }

/-- The second loop of `start` (lines 213-217), `k` iterations left, at index `i`.
`none`: `threads_[i]` holds a null pointer and `->start()` dereferences it. -/
def start_launchLoop : Nat → Int → World U UEl → Option (World U UEl)
  | 0, _, w => some w
  | k + 1, i, w =>
    let (m, entry) := w.pool.threads_.index i
    match entry with
    | none => none
    | some th =>
      let w1 := Thread.start { w with pool := { w.pool with threads_ := m } } th
      start_launchLoop k (i + 1)
        { w1 with pool := { w1.pool with idleThreadSize_ := w1.pool.idleThreadSize_ + 1 } }

/-- Lines 198-210 of `start`: the flag, the two counters and the first loop. -/
def start_create (w : World U UEl) (initThreadSize : Int) : World U UEl :=
  start_createLoop initThreadSize.toNat
    { w with pool := { w.pool with
        isPoolRunning_ := true
        initThreadSize_ := initThreadSize
        curThreadSize_ := initThreadSize } }

/-- The member `start(initThreadSize)`. -/
def start (w : World U UEl) (initThreadSize : Int) : Option (World U UEl) :=
  start_launchLoop initThreadSize.toNat 0 (start_create w initThreadSize)

/-- The destructor `~ThreadPool()` up to its wait: the flag is cleared,
`notEmpty_.notify_all()` is called, and `exitCond_.wait(lock, pred)` returns at once
when `threads_.size() == 0`, else the caller waits. `none`: the destructor already
ran. -/
def destroy (w : World U UEl) : Option (World U UEl) :=
  if w.dtor = .notCalled then
    let w1 := ({ w with pool := { w.pool with isPoolRunning_ := false } }).notify .notEmpty
    some { w1 with dtor := if w1.pool.threads_.length = 0 then .returned else .waiting }
  else none

/-- Replace the program point of the thread at position `i`. -/
def World.setPc (w : World U UEl) (i : Nat) (pc : Pc) : World U UEl :=
  { w with workers := w.workers.modify (fun k => { k with pc := pc }) i }

/-- Replace `lastTime` of the thread at position `i`. -/
def World.setLastTime (w : World U UEl) (i : Nat) (now : Int) : World U UEl :=
  { w with workers := w.workers.modify (fun k => { k with lastTime := now }) i }

/-- Line 224 of `threadFunc`: `lastTime` is initialised. -/
def threadFunc_entry (w : World U UEl) (i : Nat) (now : Int) : World U UEl :=
  (w.setLastTime i now).setPc i .loopTest

/-- The two exits of `threadFunc` taken once `isPoolRunning_` is false (lines 268-273
and 305-307): `threads_.erase(threadId)`, `exitCond_.notify_all()`, return. -/
def threadFunc_exit (w : World U UEl) (i : Nat) (threadId : Int) : World U UEl :=
  (({ w with pool := { w.pool with threads_ := w.pool.threads_.erase threadId } }).notifyExit).setPc
    i .exited

/-- The test of `while (isPoolRunning_)` (line 226). -/
def threadFunc_loopTest (w : World U UEl) (i : Nat) (threadId : Int) : World U UEl :=
  if w.pool.isPoolRunning_ then w.setPc i .locked else threadFunc_exit w i threadId

/-- Lines 276-290: a task is taken from the non-empty queue. -/
def threadFunc_dequeue (w : World U UEl) (i : Nat) (task : Task) (rest : List Task) :
    World U UEl :=
  let w1 := { w with pool := { w.pool with
                idleThreadSize_ := w.pool.idleThreadSize_ - 1
                taskQueue_ := rest
                taskSize_ := w.pool.taskSize_ - 1 } }
  let w2 := if rest.length > 0 then w1.notify .notEmpty else w1
  (w2.notify .notFull).setPc i (.executing task)

/-- The value `dur.count()` of lines 246-247: whole seconds from `lastTime` to `now`. -/
def idleSeconds (lastTime now : Int) : Int := (now - lastTime).tdiv TICKS_PER_SECOND

/-- Lines 249-258: the thread leaves because it has been idle too long. -/
def threadFunc_reclaim (w : World U UEl) (i : Nat) (threadId : Int) : World U UEl :=
  ({ w with pool := { w.pool with
        threads_ := w.pool.threads_.erase threadId
        curThreadSize_ := w.pool.curThreadSize_ - 1
        idleThreadSize_ := w.pool.idleThreadSize_ - 1 } }).setPc i .exited

/-- Lines 241-273 with an empty queue, at the moment the wait on `notEmpty_` returns:
`timedOut` tells whether `wait_for` returned `std::cv_status::timeout`, `now` is the
clock. -/
def threadFunc_afterWait (w : World U UEl) (i : Nat) (k : Worker) (timedOut : Bool)
    (now : Int) : World U UEl :=
  if w.pool.poolMode_ = .MODE_CACHED ∧ timedOut = true ∧
      idleSeconds k.lastTime now ≥ THREAD_MAX_IDLE_TIME ∧
      w.pool.curThreadSize_ > w.pool.initThreadSize_ then
    threadFunc_reclaim w i k.threadId
  else if !w.pool.isPoolRunning_ then threadFunc_exit w i k.threadId
  else w

/-- Lines 294-301: the task is executed, then `idleThreadSize_ ++` and `lastTime` is
refreshed. -/
def threadFunc_finish (w : World U UEl) (i : Nat) (task : Task) (now : Int) : World U UEl :=
  let w1 := Task.exec w task
  (({ w1 with pool := { w1.pool with idleThreadSize_ := w1.pool.idleThreadSize_ + 1 } }).setLastTime
    i now).setPc i .loopTest

/-- One step of the thread at position `i` of `workers`, from its program point.
`none`: there is no such thread or it has returned. -/
def threadFunc_step (w : World U UEl) (i : Nat) (timedOut : Bool) (now : Int) :
    Option (World U UEl) :=
  match w.workers[i]? with
  | none => none
  | some k =>
    match k.pc with
    | .exited => none
    | .entry => some (threadFunc_entry w i now)
    | .loopTest => some (threadFunc_loopTest w i k.threadId)
    | .locked =>
      match w.pool.taskQueue_ with
      | task :: rest => some (threadFunc_dequeue w i task rest)
      | [] => some (threadFunc_afterWait w i k timedOut now)
    | .executing task => some (threadFunc_finish w i task now)

/-- The atomic steps of the program. -/
inductive Step where
  | setMode (mode : PoolMode)
  | setTaskQueMaxThreshHold (threshhold : Int)
  | setThreadSizeThreshHold (threshhold : Int)
  | start (initThreadSize : Int)
  | submitTask (sp : Task)
  | destroy
  | worker (i : Nat) (timedOut : Bool) (now : Int)
  deriving DecidableEq

/-- The effect of one step; `none` when the step has no defined effect. -/
def step (w : World U UEl) : Step → Option (World U UEl)
  | .setMode mode => some (setMode w mode)
  | .setTaskQueMaxThreshHold t => some (setTaskQueMaxThreshHold w t)
  | .setThreadSizeThreshHold t => some (setThreadSizeThreshHold w t)
  | .start n => start w n
  | .submitTask sp => (submitTask w sp).map (fun r => r.1)
  | .destroy => destroy w
  | .worker i timedOut now => threadFunc_step w i timedOut now

/-- The effect of a sequence of steps. -/
def run (w : World U UEl) : List Step → Option (World U UEl)
  | [] => some w
  | s :: rest => (step w s).bind (fun w1 => run w1 rest)

/-- The step is a call of `start`. -/
def Step.isStart : Step → Bool
  | .start _ => true
  | _ => false

/-- The step is a call of `submitTask`. -/
def Step.isSubmit : Step → Bool
  | .submitTask _ => true
  | _ => false

/-- The step is taken by a thread running `threadFunc`. -/
def Step.isWorker : Step → Bool
  | .worker _ _ _ => true
  | _ => false

/-- The task handed to `submitTask` by a step, if the step is such a call. -/
def Step.submitted : Step → Option Task
  | .submitTask sp => some sp
  | _ => none

/-- The worlds reached from `w0` by steps that each have a defined effect and are each
allowed in the world where they are taken. -/
inductive Reach (allowed : World U UEl → Step → Prop) (w0 : World U UEl) :
    World U UEl → Prop where
  | init : Reach allowed w0 w0
  | next {w w1 : World U UEl} (s : Step) :
      Reach allowed w0 w → allowed w s → step w s = some w1 → Reach allowed w0 w1

/-- A call of `setTaskQueMaxThreshHold` is made only while the pool runs (where it is
ignored) or with a threshold that is at least the number of queued tasks. -/
def KeepsQueuedTasks (w : World U UEl) (s : Step) : Prop :=
  ∀ t, s = .setTaskQueMaxThreshHold t →
    w.pool.isPoolRunning_ = true ∨ (w.pool.taskQueue_.length : Int) ≤ t

/-- The thread holds a dequeued task. -/
def Worker.isBusy (k : Worker) : Bool :=
  match k.pc with
  | .executing _ => true
  | _ => false

/-- The thread holds the dequeued task `task`. -/
def Worker.holds (task : Task) (k : Worker) : Bool :=
  match k.pc with
  | .executing t => t == task
  | _ => false

/-- The thread is inside the body of the loop of `threadFunc`. -/
def Worker.inLoop (k : Worker) : Bool :=
  match k.pc with
  | .locked => true
  | .executing _ => true
  | _ => false

/-- How many times a task occurs in the queue or in the hands of a thread. -/
def World.pending (w : World U UEl) (task : Task) : Nat :=
  w.pool.taskQueue_.count task + w.workers.countP (Worker.holds task)

/-- How many threads hold a dequeued task. -/
def World.busy (w : World U UEl) : Nat :=
  w.workers.countP Worker.isBusy

/-- The call `get()` on the `Result` object at address `a`. -/
def World.get (w : World U UEl) (a : Nat) : Option (Any U UEl) :=
  match w.results[a]? with
  | none => none
  | some r => (r.get).map (fun p => p.1)

end Ops

/-! ## Families of steps and invariants used in the statements -/

section Families

variable {U : Type} {UEl : U → Type}

/-- The step is a call of `submitTask` or a step of a thread. -/
def SubmitOrWorker (_w : World U UEl) (s : Step) : Prop :=
  s.isSubmit = true ∨ s.isWorker = true

/-- The step is not a call of `start`. -/
def NotStart (_w : World U UEl) (s : Step) : Prop := s.isStart = false

/-- A call of `start` is made with a non-negative size on a pool that is stopped, whose
destructor has not begun and whose `idleThreadSize_` is 0 (no thread has been created
by an earlier `submitTask`). -/
def StartsFresh (w : World U UEl) (s : Step) : Prop :=
  ∀ n, s = .start n →
    0 ≤ n ∧ w.pool.isPoolRunning_ = false ∧ w.dtor = .notCalled ∧ w.pool.idleThreadSize_ = 0

/-- The pool has not been started and its destructor has not begun. -/
def Unstarted (w : World U UEl) : Prop :=
  w.pool.isPoolRunning_ = false ∧ w.dtor = .notCalled

/-- The effect of a sequence of steps together with the addresses of the `Result`
objects returned by its calls of `submitTask`, in order. -/
def runResults (w : World U UEl) : List Step → Option (World U UEl × List Nat)
  | [] => some (w, [])
  | .submitTask sp :: rest =>
    (submitTask w sp).bind (fun r =>
      (runResults r.1 rest).map (fun q => (q.1, r.2 :: q.2)))
  | s :: rest => (step w s).bind (fun w1 => runResults w1 rest)

/-- The registry that holds live threads under the keys `g, ..., g + k - 1`. -/
def Registry.fresh (g : Int) (k : Nat) : Registry :=
  List.map (fun i : Nat => ((g + (i : Int)), some { threadId_ := g + (i : Int) }))
    (List.range k)

/-- The threads launched for the identifiers `i, ..., i + k - 1`, none of which has
run yet. -/
def launchedWorkers (i k : Nat) : List Worker :=
  List.map (fun j : Nat => { threadId := (j : Int), lastTime := 0, pc := .entry })
    (List.range' i k)

/-- The registry holds no null pointer. -/
def NoNullThread (m : Registry) : Prop := ∀ e ∈ m, e.2 ≠ none

/-- The state of the `Result` objects while the tasks `ts` are being submitted to a
world that had `L0` such objects: `k` of the tasks have been submitted; the object of
the `j`-th one sits at address `L0 + j`, is valid, is the one its task points to, and
its semaphore has been posted unless the task is still queued or held by a thread. -/
structure DeliveryInv (L0 : Nat) (ts : List Task) (w : World U UEl) (k : Nat) : Prop where
  len : w.results.length = L0 + k
  reg : NoNullThread w.pool.threads_
  cap : w.pool.taskQueMaxThreshHold_ ≤ 2147483647
  free : (w.pool.taskQueue_.length : Int) + ts.length ≤ w.pool.taskQueMaxThreshHold_ + k
  own : ∀ t a, (w.tasks t).result_ = some a → a < L0 + k ∧ (L0 ≤ a → ts[a - L0]? = some t)
  done : ∀ j, j < k → ∃ t r, ts[j]? = some t ∧ (w.tasks t).result_ = some (L0 + j) ∧
    w.results[L0 + j]? = some r ∧ r.isValid_ = true ∧ r.sem_.isExit_ = false ∧
    0 ≤ r.sem_.resLimit_ ∧ 1 ≤ r.sem_.resLimit_ + w.pending t ∧
    (1 ≤ r.sem_.resLimit_ → r.any_ = (w.tasks t).run)

end Families

/-! ## `class MyTask` (main.cpp, lines 10-35) -/

/-- The conversion of an `int` to `unsigned long long`. -/
def toULL (x : Int) : Nat := (x % 2 ^ 64).toNat

/-- The loop `for (ULL i = begin_; i <= end_; i++) sum += i;` with `endU` the converted
`end_`; at most `fuel` evaluations of the loop test, `none` when they do not suffice. -/
def MyTask.runLoop (endU : Nat) : Nat → Nat → Nat → Option Nat
  | 0, _, _ => none
  | fuel + 1, i, sum =>
    if i ≤ endU then MyTask.runLoop endU fuel ((i + 1) % 2 ^ 64) ((sum + i) % 2 ^ 64)
    else some sum

/-- The member `MyTask::run()` of a task built by `MyTask(begin, end)`: the `Any` that
holds the `unsigned long long` sum. -/
def MyTask.run {U : Type} {UEl : U → Type} (fuel : Nat) (begin_ end_ : Int) :
    Option (Any U UEl) :=
  (MyTask.runLoop (toULL end_) fuel (toULL begin_) 0).map (Any.of .unsignedLongLong)

/-- The expression `sum1 + sum2 + sum3` of `main`, in `unsigned long long`. -/
def main_total (sum1 sum2 sum3 : Nat) : Nat := ((sum1 + sum2) % 2 ^ 64 + sum3) % 2 ^ 64

/-! ## Concrete programs used in examples -/

/-- The further types of the examples: one type, with integer values. -/
abbrev DemoEl : Unit → Type := fun _ => Int

/-- Task objects of the examples: task `t` has not been bound to a `Result` and its
`run()` yields the `unsigned long long` value `10 * t`. -/
def demoTasks : Task → TaskObj Unit DemoEl :=
  fun t => { result_ := none, run := Any.of .unsignedLongLong (10 * t) }

/-- A freshly constructed pool in a process whose `Thread::generateId_` is `g`. -/
def demoWorld (g : Int) : World Unit DemoEl := World.construct g demoTasks

/-- The world after a sequence of steps (the world itself when the steps have no defined
effect). -/
def World.after {U : Type} {UEl : U → Type} (w : World U UEl) (steps : List Step) :
    World U UEl :=
  (run w steps).getD w

/-- The first pool of a process, started with one thread, as in `main`. -/
def demoStarted : World Unit DemoEl := (demoWorld 0).after [.start 1]

/-- A schedule on `demoStarted`: task 7 is submitted, the thread enters its loop and
dequeues it, task 8 is submitted, the thread finishes task 7. -/
def demoSchedule : List Step :=
  [.submitTask 7, .worker 0 false 0, .worker 0 false 0, .worker 0 false 0, .submitTask 8,
   .worker 0 false 5]

/-- The first pool of a process, started with two threads. -/
def demoStartedTwo : World Unit DemoEl := (demoWorld 0).after [.start 2]

/-- A schedule on `demoStartedTwo`: tasks 7 and 8 are submitted, thread 0 dequeues task 7,
thread 1 dequeues task 8 and finishes it first, then thread 0 finishes task 7. -/
def demoScheduleTwo : List Step :=
  [.submitTask 7, .submitTask 8,
   .worker 0 false 0, .worker 0 false 0, .worker 0 false 0,
   .worker 1 false 0, .worker 1 false 0, .worker 1 false 0,
   .worker 1 false 3, .worker 0 false 5]

/-- A cached-mode pool started with no thread whose only thread, created by
`submitTask`, has finished its task at clock 5 and waits on the empty queue. -/
def demoIdle : World Unit DemoEl :=
  (demoWorld 0).after
    [.setMode .MODE_CACHED, .start 0, .submitTask 7, .worker 0 false 0, .worker 0 false 0,
     .worker 0 false 0, .worker 0 false 5, .worker 0 false 5]

/-- A stopped pool switched to cached mode. -/
def demoCached : World Unit DemoEl := (demoWorld 0).after [.setMode .MODE_CACHED]

/-- The world `demoIdle` after the destructor has begun: it waits on `exitCond_`. -/
def demoStopping : World Unit DemoEl := demoIdle.after [.destroy]

/-- A stopped pool whose queue threshold has been set to `t` and whose queue holds the
tasks `q`. -/
def demoQueued (t : Int) (q : List Task) : World Unit DemoEl :=
  (setTaskQueMaxThreshHold (demoWorld 0) t).after (q.map Step.submitTask)

/-! ## Extraction from `Any` (C3) -/

section AnyFacts
variable {U : Type} [DecidableEq U] {UEl : U → Type}

/-- Extracting with the type that was stored returns the stored value. -/
theorem Any.cast_of_same (S : CppType U) (v : S.El UEl) :
    (Any.of S v).cast_ S = .ok v := by
  simp [Any.cast_, Any.of]

/-- Extracting with another type than the stored one throws. -/
theorem Any.cast_of_other (S T : CppType U) (v : S.El UEl) (h : T ≠ S) :
    (Any.of S v).cast_ T = .error "type is unmatch!" := by
  have h2 : ¬ S = T := fun e => h e.symm
  simp [Any.cast_, Any.of, h2]

/-- Extracting from a default-constructed `Any` throws. -/
theorem Any.cast_empty (T : CppType U) :
    (Any.empty : Any U UEl).cast_ T = .error "type is unmatch!" := by
  simp [Any.cast_, Any.empty]

/-- C3: for every value `v` of every type `S`, `Any(v).cast_<T>()` returns `v` when `T` is
exactly `S` and throws the type-mismatch error `"type is unmatch!"` when `T` differs from
`S`; extracting from a default-constructed `Any` throws for every `T`. -/
theorem any_cast_exact_type (S T : CppType U) (v : S.El UEl) :
    (Any.of S v).cast_ S = .ok v ∧
    (T ≠ S → (Any.of S v).cast_ T = .error "type is unmatch!") ∧
    (Any.empty : Any U UEl).cast_ T = .error "type is unmatch!" :=
  ⟨Any.cast_of_same S v, Any.cast_of_other S T v, Any.cast_empty T⟩

end AnyFacts

/-- Witness of C3: an `Any` built from the `unsigned long long` value 5 gives 5 back, refuses
the extraction with another type, and an empty `Any` refuses every extraction. -/
theorem any_cast_exact_type_witness :
    (Any.of (CppType.unsignedLongLong : CppType Unit) (5 : Nat) : Any Unit DemoEl).cast_
        .unsignedLongLong = .ok (5 : Nat) ∧
    (CppType.user () ≠ (CppType.unsignedLongLong : CppType Unit) ∧
      (Any.of (CppType.unsignedLongLong : CppType Unit) (5 : Nat) : Any Unit DemoEl).cast_
        (.user ()) = .error "type is unmatch!") ∧
    (Any.empty : Any Unit DemoEl).cast_ (.user ()) = .error "type is unmatch!" :=
  ⟨(@any_cast_exact_type Unit _ DemoEl .unsignedLongLong (.user ()) (5 : Nat)).1,
   ⟨by decide,
    (@any_cast_exact_type Unit _ DemoEl .unsignedLongLong (.user ()) (5 : Nat)).2.1 (by decide)⟩,
   (@any_cast_exact_type Unit _ DemoEl .unsignedLongLong (.user ()) (5 : Nat)).2.2⟩

/-! ## The range sum of `MyTask::run` (C10) -/

/-- The conversion to `unsigned long long` keeps a value in range. -/
theorem toULL_of_nonneg (x : Int) (h0 : 0 ≤ x) (h1 : x < 2 ^ 64) : toULL x = x.toNat := by
  unfold toULL
  rw [Int.emod_eq_of_lt h0 h1]

/-- Loop invariant of `MyTask::run`: with `d` values `i, ..., e` left and no wrap-around, the
loop adds `(i + e) * d / 2` to `sum`, provided the fuel exceeds `d`. -/
theorem MyTask.runLoop_closed (e : Nat) (he : e + 1 < 2 ^ 64) :
    ∀ (d fuel i sum : Nat), i + d = e + 1 → d < fuel → sum + (i + e) * d / 2 < 2 ^ 64 →
      MyTask.runLoop e fuel i sum = some (sum + (i + e) * d / 2) := by
  intro d
  induction d with
  | zero =>
    intro fuel i sum hi hf _
    cases fuel with
    | zero => omega
    | succ f =>
      have : ¬ i ≤ e := by omega
      simp [MyTask.runLoop, this]
  | succ d ih =>
    intro fuel i sum hi hf hs
    cases fuel with
    | zero => omega
    | succ f =>
      have hle : i ≤ e := by omega
      have key : (i + e) * (d + 1) = 2 * i + (i + 1 + e) * d := by
        have : e = i + d := by omega
        subst this
        ring
      have hdiv : (i + e) * (d + 1) / 2 = i + (i + 1 + e) * d / 2 := by
        rw [key, Nat.mul_add_div (by decide : 2 > 0)]
      rw [hdiv] at hs ⊢
      have h1 : (i + 1) % 2 ^ 64 = i + 1 := Nat.mod_eq_of_lt (by omega)
      have h2 : (sum + i) % 2 ^ 64 = sum + i := Nat.mod_eq_of_lt (by omega)
      rw [MyTask.runLoop, if_pos hle, h1, h2,
        ih f (i + 1) (sum + i) (by omega) (by omega) (by omega)]
      congr 1
      omega

/-- The closed-form sum of a range of `int` bounds is below `2 ^ 63`. -/
theorem closed_form_lt (b e : Nat) (hbe : b ≤ e) (he : e < 2 ^ 31) :
    (b + e) * (e - b + 1) / 2 < 2 ^ 63 := by
  have h1 : b + e ≤ 2 ^ 32 := by omega
  have h2 : e - b + 1 ≤ 2 ^ 31 := by omega
  have : (b + e) * (e - b + 1) ≤ 2 ^ 32 * 2 ^ 31 := Nat.mul_le_mul h1 h2
  have h3 : (2:Nat) ^ 32 * 2 ^ 31 = 2 ^ 63 := by norm_num
  omega

/-- The loop started at `b` with `sum = 0` yields the closed-form sum of `[b, e]`. -/
theorem MyTask.runLoop_range (b e fuel : Nat) (hbe : b ≤ e) (he : e < 2 ^ 31)
    (hf : e - b + 1 < fuel) :
    MyTask.runLoop e fuel b 0 = some ((b + e) * (e - b + 1) / 2) := by
  have hlt := closed_form_lt b e hbe he
  have := MyTask.runLoop_closed e (by omega) (e - b + 1) fuel b 0 (by omega) hf (by omega)
  simpa using this

/-- The member `run()` on natural bounds `b ≤ e < 2 ^ 31`. -/
theorem MyTask.run_range {U : Type} {UEl : U → Type} (b e fuel : Nat) (hbe : b ≤ e)
    (he : e < 2 ^ 31) (hf : e - b + 1 < fuel) :
    (MyTask.run fuel (b : Int) (e : Int) : Option (Any U UEl)) =
      some (Any.of .unsignedLongLong ((b + e) * (e - b + 1) / 2)) := by
  have hb' : toULL (b : Int) = b := by
    rw [toULL_of_nonneg _ (by omega) (by omega)]; simp
  have he' : toULL (e : Int) = e := by
    rw [toULL_of_nonneg _ (by omega) (by omega)]; simp
  simp only [MyTask.run, hb', he', MyTask.runLoop_range b e fuel hbe he hf, Option.map_some']

/-- The closed form computed on integers and reduced modulo `2 ^ 64` is the one on naturals. -/
theorem closed_form_cast (b e : Nat) (hbe : b ≤ e) (he : e < 2 ^ 31) :
    ((((b : Int) + e) * (e - b + 1) / 2) % 2 ^ 64).toNat = (b + e) * (e - b + 1) / 2 := by
  have hlt := closed_form_lt b e hbe he
  have h : (((b : Int) + e) * (e - b + 1) / 2) = (((b + e) * (e - b + 1) / 2 : Nat) : Int) := by
    push_cast [Nat.cast_sub hbe]
    rfl
  rw [h, Int.emod_eq_of_lt (by omega) (by omega)]
  exact Int.toNat_ofNat _

/-- C10: for `int` bounds with `0 ≤ begin ≤ end`, `MyTask(begin, end).run()` returns (given
enough fuel for the `end - begin + 1` iterations) the `unsigned long long` value
`(begin + end) * (end - begin + 1) / 2` modulo `2 ^ 64`; for the three ranges of `main` the
results are 5000000050000000, 15000000050000000 and 25000000050000000, nothing wraps
around, and `sum1 + sum2 + sum3` is `300000000 * 300000001 / 2 = 45000000150000000`. -/
theorem MyTask_run_closed_form {U : Type} {UEl : U → Type} (begin_ end_ : Int) (fuel : Nat)
    (h0 : 0 ≤ begin_) (h1 : begin_ ≤ end_) (h2 : end_ ≤ 2147483647)
    (hf : end_ - begin_ + 1 < fuel) :
    (MyTask.run fuel begin_ end_ : Option (Any U UEl)) =
        some (Any.of .unsignedLongLong
          (((begin_ + end_) * (end_ - begin_ + 1) / 2) % 2 ^ 64).toNat) ∧
      (100000000 < fuel →
        (MyTask.run fuel 1 100000000 : Option (Any U UEl)) =
            some (Any.of .unsignedLongLong (5000000050000000 : Nat)) ∧
          (MyTask.run fuel 100000001 200000000 : Option (Any U UEl)) =
            some (Any.of .unsignedLongLong (15000000050000000 : Nat)) ∧
          (MyTask.run fuel 200000001 300000000 : Option (Any U UEl)) =
            some (Any.of .unsignedLongLong (25000000050000000 : Nat))) ∧
      5000000050000000 + 15000000050000000 + 25000000050000000 < 2 ^ 64 ∧
      main_total 5000000050000000 15000000050000000 25000000050000000 = 45000000150000000 ∧
      300000000 * 300000001 / 2 = 45000000150000000 := by
  refine ⟨?_, ?_, by norm_num, by decide, by norm_num⟩
  · obtain ⟨b, rfl⟩ := Int.eq_ofNat_of_zero_le h0
    obtain ⟨e, rfl⟩ := Int.eq_ofNat_of_zero_le (le_trans h0 h1)
    have hbe : b ≤ e := by omega
    have he : e < 2 ^ 31 := by omega
    rw [closed_form_cast b e hbe he]
    exact MyTask.run_range b e fuel hbe he (by omega)
  · intro hfu
    refine ⟨?_, ?_, ?_⟩
    · have := @MyTask.run_range U UEl 1 100000000 fuel (by norm_num) (by norm_num) (by omega)
      simpa using this
    · have := @MyTask.run_range U UEl 100000001 200000000 fuel (by norm_num) (by norm_num)
        (by omega)
      simpa using this
    · have := @MyTask.run_range U UEl 200000001 300000000 fuel (by norm_num) (by norm_num)
        (by omega)
      simpa using this

/-- Witness of C10: `MyTask(1, 3).run()` returns 6. -/
theorem MyTask_run_closed_form_witness :
    (MyTask.run 5 1 3 : Option (Any Unit DemoEl)) = some (Any.of .unsignedLongLong (6 : Nat)) :=
  (@MyTask_run_closed_form Unit DemoEl 1 3 5 (by decide) (by decide) (by decide) (by decide)).1

/-! ## Reclamation of idle threads (C8) -/

section
variable {U : Type} {UEl : U → Type}

/-- The test `dur.count() >= THREAD_MAX_IDLE_TIME` on whole seconds holds exactly when at
least ten seconds of clock ticks have passed since `lastTime`. -/
theorem idleSeconds_ge_iff (lastTime now : Int) :
    idleSeconds lastTime now ≥ THREAD_MAX_IDLE_TIME ↔
      THREAD_MAX_IDLE_TIME * TICKS_PER_SECOND ≤ now - lastTime := by
  unfold idleSeconds THREAD_MAX_IDLE_TIME TICKS_PER_SECOND
  rcases lt_or_le (now - lastTime) 0 with hneg | hpos
  · have h1 : (now - lastTime).tdiv 1000000000 ≤ 0 := by
      have : 0 ≤ (-(now - lastTime)).tdiv 1000000000 :=
        Int.tdiv_nonneg (by omega) (by decide)
      rw [Int.neg_tdiv] at this
      omega
    constructor <;> intro h <;> omega
  · rw [Int.tdiv_eq_ediv hpos (by decide), ge_iff_le,
      Int.le_ediv_iff_mul_le (by decide)]

/-- After `threads_.erase(k)` the key `k` is missing. -/
theorem Registry.lookup_erase (m : Registry) (k : Int) : (m.erase k).lookup k = none := by
  unfold Registry.lookup Registry.erase
  simp [List.find?_eq_none]

/-- The thread at position `i` after its program point has been replaced. -/
theorem setPc_workers_get (w : World U UEl) (i : Nat) (k : Worker) (pc : Pc)
    (hk : w.workers[i]? = some k) : (w.setPc i pc).workers[i]? = some { k with pc := pc } := by
  simp [World.setPc, hk]

/-- C8: in cached mode, when the wait of a thread on the empty queue times out: if at least
`THREAD_MAX_IDLE_TIME` seconds have passed since its `lastTime` and
`curThreadSize_ > initThreadSize_`, the thread erases itself from `threads_`, decrements
`curThreadSize_` and `idleThreadSize_` by one and returns, and `curThreadSize_` stays at
or above `initThreadSize_`; if `curThreadSize_ ≤ initThreadSize_` the thread is not
reclaimed, whatever the time passed: the counters are unchanged and, while the pool
runs, the thread keeps waiting in an unchanged world. -/
theorem threadFunc_idle_reclaim (w : World U UEl) (i : Nat) (k : Worker) (now : Int)
    (hk : w.workers[i]? = some k) (hpc : k.pc = .locked)
    (hq : w.pool.taskQueue_ = []) (hm : w.pool.poolMode_ = .MODE_CACHED) :
    (THREAD_MAX_IDLE_TIME * TICKS_PER_SECOND ≤ now - k.lastTime →
      w.pool.curThreadSize_ > w.pool.initThreadSize_ →
      ∃ w1, threadFunc_step w i true now = some w1 ∧
        w1.pool.threads_ = w.pool.threads_.erase k.threadId ∧
        w1.pool.threads_.lookup k.threadId = none ∧
        w1.pool.curThreadSize_ = w.pool.curThreadSize_ - 1 ∧
        w1.pool.idleThreadSize_ = w.pool.idleThreadSize_ - 1 ∧
        w1.workers[i]? = some { k with pc := .exited } ∧
        w1.pool.initThreadSize_ ≤ w1.pool.curThreadSize_) ∧
    (w.pool.curThreadSize_ ≤ w.pool.initThreadSize_ →
      ∃ w1, threadFunc_step w i true now = some w1 ∧
        w1.pool.curThreadSize_ = w.pool.curThreadSize_ ∧
        w1.pool.idleThreadSize_ = w.pool.idleThreadSize_ ∧
        w1.pool.initThreadSize_ = w.pool.initThreadSize_ ∧
        (w.pool.isPoolRunning_ = true → w1 = w)) := by
  constructor
  · intro hdur hcur
    have hd := (idleSeconds_ge_iff k.lastTime now).2 hdur
    refine ⟨threadFunc_reclaim w i k.threadId, ?_, rfl, ?_, rfl, rfl, ?_, ?_⟩
    · simp [threadFunc_step, hk, hpc, hq, threadFunc_afterWait, hm, hd, hcur]
    · exact Registry.lookup_erase _ _
    · exact setPc_workers_get _ i k .exited hk
    · show w.pool.initThreadSize_ ≤ w.pool.curThreadSize_ - 1
      omega
  · intro hcur
    have hnot : ¬ w.pool.curThreadSize_ > w.pool.initThreadSize_ := by omega
    cases hrun : w.pool.isPoolRunning_ with
    | true =>
      refine ⟨w, ?_, rfl, rfl, rfl, fun _ => rfl⟩
      simp [threadFunc_step, hk, hpc, hq, threadFunc_afterWait, hm, hnot, hrun]
    | false =>
      refine ⟨threadFunc_exit w i k.threadId, ?_, rfl, rfl, rfl, ?_⟩
      · simp [threadFunc_step, hk, hpc, hq, threadFunc_afterWait, hm, hnot, hrun]
      · intro h; cases h

end

/-- Witness of C8: the thread of `demoIdle`, idle since clock 5, is reclaimed when its wait
times out ten seconds later. -/
theorem threadFunc_idle_reclaim_witness :
    ∃ w1, threadFunc_step demoIdle 0 true 10000000005 = some w1 ∧
      w1.pool.threads_ = demoIdle.pool.threads_.erase 0 ∧
      w1.pool.threads_.lookup 0 = none ∧
      w1.pool.curThreadSize_ = demoIdle.pool.curThreadSize_ - 1 ∧
      w1.pool.idleThreadSize_ = demoIdle.pool.idleThreadSize_ - 1 ∧
      w1.workers[0]? = some { threadId := 0, lastTime := 5, pc := .exited } ∧
      w1.pool.initThreadSize_ ≤ w1.pool.curThreadSize_ :=
  (threadFunc_idle_reclaim demoIdle 0 { threadId := 0, lastTime := 5, pc := .locked }
    10000000005 rfl rfl rfl rfl).1 (by decide) (by decide)

/-! ## What each operation changes -/

section
variable {U : Type} {UEl : U → Type}

/-- The first loop of `start` changes only `threads_` and `generateId_`. -/
theorem start_createLoop_frame (k : Nat) (w : World U UEl) :
    start_createLoop k w =
      { w with
        pool := { w.pool with threads_ := (start_createLoop k w).pool.threads_ }
        generateId_ := w.generateId_ + k } := by
  induction k generalizing w with
  | zero => simp [start_createLoop]
  | succ k ih =>
    rw [start_createLoop]
    simp only [Thread.create]
    rw [ih]
    simp only [Nat.cast_add, Nat.cast_one]
    congr 1
    omega

/-- The second loop of `start`, when defined, changes only `threads_`, `workers` and
`idleThreadSize_`, which grows by the number of iterations; no new thread holds a task. -/
theorem start_launchLoop_frame (k : Nat) (i : Int) (w w1 : World U UEl)
    (h : start_launchLoop k i w = some w1) :
    w1 = { w with
        pool := { w.pool with
          threads_ := w1.pool.threads_
          idleThreadSize_ := w.pool.idleThreadSize_ + k }
        workers := w1.workers } ∧ w1.busy = w.busy := by
  induction k generalizing w i with
  | zero =>
    simp only [start_launchLoop, Option.some.injEq] at h
    subst h
    simp
  | succ k ih =>
    rw [start_launchLoop] at h
    simp only at h
    split at h
    · cases h
    · rename_i th hth
      have := ih _ _ h
      obtain ⟨h1, h2⟩ := this
      constructor
      · rw [h1]
        simp only [Thread.start, Nat.cast_add, Nat.cast_one]
        congr 2
        omega
      · rw [h2]
        simp [World.busy, Thread.start, List.countP_append, List.countP_cons, Worker.isBusy]

end

section
variable {U : Type} {UEl : U → Type}

/-- The conversion to `size_t` does not increase a non-negative `int`. -/
theorem toSizeT_le (x : Int) (h : 0 ≤ x) : (toSizeT x : Int) ≤ x := by
  unfold toSizeT
  have h1 : 0 ≤ x % 2 ^ 64 := Int.emod_nonneg _ (by norm_num)
  rw [Int.toNat_of_nonneg h1]
  omega

/-- What `start`, when defined, changes in the pool. -/
theorem start_pool (w w1 : World U UEl) (n : Int) (h : start w n = some w1) :
    w1.pool.taskQueue_ = w.pool.taskQueue_ ∧
    w1.pool.taskQueMaxThreshHold_ = w.pool.taskQueMaxThreshHold_ ∧
    w1.pool.initThreadSize_ = n ∧ w1.pool.curThreadSize_ = n ∧
    w1.pool.idleThreadSize_ = w.pool.idleThreadSize_ + n.toNat ∧
    w1.pool.threadSizeThreshHold_ = w.pool.threadSizeThreshHold_ ∧
    w1.pool.poolMode_ = w.pool.poolMode_ ∧
    w1.pool.isPoolRunning_ = true ∧
    w1.busy = w.busy := by
  unfold start at h
  obtain ⟨h1, h2⟩ := start_launchLoop_frame _ _ _ _ h
  rw [h2, h1]
  unfold start_create
  rw [start_createLoop_frame]
  simp [World.busy]

end

section
variable {U : Type} {UEl : U → Type}

/-- What `submitTask_grow` changes. -/
theorem submitTask_grow_effect (w w1 : World U UEl) (h : submitTask_grow w = some w1) :
    w1 = w ∨
      (w.pool.poolMode_ = .MODE_CACHED ∧ w.pool.taskSize_ > w.pool.idleThreadSize_ ∧
        w.pool.curThreadSize_ < w.pool.threadSizeThreshHold_ ∧
        ∃ k : Worker, k.pc = .entry ∧
          w1 = { w with
            pool := { w.pool with
              threads_ := w1.pool.threads_
              curThreadSize_ := w.pool.curThreadSize_ + 1
              idleThreadSize_ := w.pool.idleThreadSize_ + 1 }
            generateId_ := w.generateId_ + 1
            workers := w.workers ++ [k] }) := by
  unfold submitTask_grow at h
  split at h
  · rename_i hc
    right
    refine ⟨hc.1, hc.2.1, hc.2.2, ?_⟩
    simp only [Thread.create] at h
    split at h
    · cases h
    · rename_i th hth
      simp only [Option.some.injEq] at h
      subst h
      exact ⟨_, rfl, rfl⟩
  · left
    simp only [Option.some.injEq] at h
    exact h.symm

end

section
variable {U : Type} {UEl : U → Type}

/-- What `submitTask` changes. -/
theorem submitTask_effect (w w1 : World U UEl) (sp : Task) (a : Nat)
    (h : submitTask w sp = some (w1, a)) :
    a = w.results.length ∧
    w1.results = w.results ++
      [{ any_ := Any.empty
         sem_ := Semaphore.new 0
         task_ := sp
         isValid_ := decide (w.pool.taskQueue_.length < toSizeT w.pool.taskQueMaxThreshHold_) }] ∧
    w1.tasks = Function.update w.tasks sp { w.tasks sp with result_ := some w.results.length } ∧
    w1.dtor = w.dtor ∧
    w1.pool.taskQueMaxThreshHold_ = w.pool.taskQueMaxThreshHold_ ∧
    w1.pool.initThreadSize_ = w.pool.initThreadSize_ ∧
    w1.pool.threadSizeThreshHold_ = w.pool.threadSizeThreshHold_ ∧
    w1.pool.poolMode_ = w.pool.poolMode_ ∧
    w1.pool.isPoolRunning_ = w.pool.isPoolRunning_ ∧
    ((¬ w.pool.taskQueue_.length < toSizeT w.pool.taskQueMaxThreshHold_ ∧
        w1.pool = w.pool ∧ w1.workers = w.workers ∧ w1.generateId_ = w.generateId_ ∧
        w1.signals = w.signals) ∨
      (w.pool.taskQueue_.length < toSizeT w.pool.taskQueMaxThreshHold_ ∧
        w1.pool.taskQueue_ = w.pool.taskQueue_ ++ [sp] ∧
        w1.pool.taskSize_ = w.pool.taskSize_ + 1 ∧
        ((w1.pool.curThreadSize_ = w.pool.curThreadSize_ ∧
            w1.pool.idleThreadSize_ = w.pool.idleThreadSize_ ∧
            w1.pool.threads_ = w.pool.threads_ ∧
            w1.workers = w.workers) ∨
          (w.pool.poolMode_ = .MODE_CACHED ∧
            w.pool.curThreadSize_ < w.pool.threadSizeThreshHold_ ∧
            w1.pool.curThreadSize_ = w.pool.curThreadSize_ + 1 ∧
            w1.pool.idleThreadSize_ = w.pool.idleThreadSize_ + 1 ∧
            ∃ k : Worker, k.pc = .entry ∧ w1.workers = w.workers ++ [k])))) := by
  unfold submitTask at h
  split at h
  · rename_i hc
    simp only at h
    split at h
    · cases h
    · rename_i w2 hg
      simp only [Option.some.injEq] at h
      have h1 : w1 = (Result.create w2 sp true).1 := by rw [h]
      have h2 : a = (Result.create w2 sp true).2 := by rw [h]
      rcases submitTask_grow_effect _ _ hg with hw2 | ⟨hm, hts, hcur, k, hk, hw2⟩
      · subst hw2
        subst h1 h2
        simp [Result.create, World.notify, hc]
      · subst h1 h2
        rw [hw2]
        simp only [Result.create, World.notify, hc, decide_True, true_and, not_true_eq_false,
          false_and, false_or, and_self, and_true]
        exact Or.inr ⟨hm, hcur, k, hk, rfl⟩
  · rename_i hc
    simp only [Option.some.injEq] at h
    have h1 : w1 = (Result.create w sp false).1 := by rw [h]
    have h2 : a = (Result.create w sp false).2 := by rw [h]
    subst h1 h2
    simp [Result.create, hc]

end

section
variable {U : Type} {UEl : U → Type}

/-- Counting after one element of a list has been modified. -/
theorem countP_modify {α : Type} (p : α → Bool) (f : α → α) :
    ∀ (l : List α) (i : Nat) (k : α), l[i]? = some k →
      (l.modify f i).countP p + (if p k then 1 else 0) =
        l.countP p + (if p (f k) then 1 else 0) := by
  intro l
  induction l with
  | nil => intro i k h; simp at h
  | cons a l ih =>
    intro i k h
    cases i with
    | zero =>
      simp only [List.getElem?_cons_zero, Option.some.injEq] at h
      subst h
      simp only [List.modify_zero_cons, List.countP_cons]
      omega
    | succ i =>
      simp only [List.getElem?_cons_succ] at h
      have := ih i k h
      simp only [List.modify_succ_cons, List.countP_cons]
      omega

/-- The number of busy threads after a program point has been replaced. -/
theorem busy_setPc (w : World U UEl) (i : Nat) (k : Worker) (pc : Pc)
    (hk : w.workers[i]? = some k) :
    (w.setPc i pc).busy + (if k.isBusy then 1 else 0) =
      w.busy + (if (Worker.isBusy { k with pc := pc }) then 1 else 0) := by
  unfold World.busy World.setPc
  exact countP_modify Worker.isBusy _ w.workers i k hk

/-- Replacing `lastTime` keeps the number of busy threads. -/
theorem busy_setLastTime (w : World U UEl) (i : Nat) (now : Int) :
    (w.setLastTime i now).busy = w.busy := by
  unfold World.busy World.setLastTime
  cases hk : w.workers[i]? with
  | none =>
    have : w.workers.length ≤ i := by
      rcases Nat.lt_or_ge i w.workers.length with h | h
      · simp [List.getElem?_eq_getElem h] at hk
      · exact h
    rw [List.modify_eq_self this]
  | some k =>
    have := countP_modify Worker.isBusy (fun k => { k with lastTime := now }) w.workers i k hk
    simp only [Worker.isBusy] at this ⊢
    omega

end

section
variable {U : Type} {UEl : U → Type}

/-- Replacing a program point keeps the pool. -/
theorem setPc_pool (w : World U UEl) (i : Nat) (pc : Pc) : (w.setPc i pc).pool = w.pool := rfl
/-- Replacing `lastTime` keeps the pool. -/
theorem setLastTime_pool (w : World U UEl) (i : Nat) (now : Int) :
    (w.setLastTime i now).pool = w.pool := rfl
/-- The thread at position `i` after its `lastTime` has been replaced. -/
theorem setLastTime_get (w : World U UEl) (i : Nat) (now : Int) (k : Worker)
    (hk : w.workers[i]? = some k) :
    (w.setLastTime i now).workers[i]? = some { k with lastTime := now } := by
  simp [World.setLastTime, hk]

/-- The pool after a dequeue. -/
theorem threadFunc_dequeue_pool (w : World U UEl) (i : Nat) (task : Task) (rest : List Task) :
    (threadFunc_dequeue w i task rest).pool =
      { w.pool with
        idleThreadSize_ := w.pool.idleThreadSize_ - 1
        taskQueue_ := rest
        taskSize_ := w.pool.taskSize_ - 1 } := by
  unfold threadFunc_dequeue
  simp only
  split <;> rfl

/-- The threads after a dequeue. -/
theorem threadFunc_dequeue_workers (w : World U UEl) (i : Nat) (task : Task)
    (rest : List Task) :
    (threadFunc_dequeue w i task rest).workers =
      w.workers.modify (fun k => { k with pc := .executing task }) i := by
  unfold threadFunc_dequeue
  simp only
  split <;> rfl

/-- The member `Task::exec` keeps the pool. -/
theorem Task.exec_pool (w : World U UEl) (task : Task) : (Task.exec w task).pool = w.pool := by
  unfold Task.exec; split <;> rfl

/-- The member `Task::exec` keeps the threads. -/
theorem Task.exec_workers (w : World U UEl) (task : Task) :
    (Task.exec w task).workers = w.workers := by
  unfold Task.exec; split <;> rfl

/-- The pool after a task has been finished. -/
theorem threadFunc_finish_pool (w : World U UEl) (i : Nat) (task : Task) (now : Int) :
    (threadFunc_finish w i task now).pool =
      { w.pool with idleThreadSize_ := w.pool.idleThreadSize_ + 1 } := by
  simp only [threadFunc_finish, setPc_pool, setLastTime_pool, Task.exec_pool]

/-- The threads after a task has been finished. -/
theorem threadFunc_finish_workers (w : World U UEl) (i : Nat) (task : Task) (now : Int) :
    (threadFunc_finish w i task now).workers =
      (w.workers.modify (fun k => { k with lastTime := now }) i).modify
        (fun k => { k with pc := .loopTest }) i := by
  simp only [threadFunc_finish, World.setPc, World.setLastTime, Task.exec_workers]

/-- What one step of a thread changes in the counters of the pool. -/
theorem threadFunc_step_effect (w w1 : World U UEl) (i : Nat) (timedOut : Bool) (now : Int)
    (h : threadFunc_step w i timedOut now = some w1) :
    w1.pool.taskQueMaxThreshHold_ = w.pool.taskQueMaxThreshHold_ ∧
    w1.pool.initThreadSize_ = w.pool.initThreadSize_ ∧
    w1.pool.threadSizeThreshHold_ = w.pool.threadSizeThreshHold_ ∧
    w1.pool.poolMode_ = w.pool.poolMode_ ∧
    w1.pool.isPoolRunning_ = w.pool.isPoolRunning_ ∧
    ((w1.pool.taskQueue_ = w.pool.taskQueue_ ∧ w1.pool.curThreadSize_ = w.pool.curThreadSize_ ∧
        w1.pool.idleThreadSize_ = w.pool.idleThreadSize_ ∧ w1.busy = w.busy) ∨
      (∃ task, w.pool.taskQueue_ = task :: w1.pool.taskQueue_ ∧
        w1.pool.curThreadSize_ = w.pool.curThreadSize_ ∧
        w1.pool.idleThreadSize_ = w.pool.idleThreadSize_ - 1 ∧ w1.busy = w.busy + 1) ∨
      (w.pool.taskQueue_ = [] ∧ w1.pool.taskQueue_ = [] ∧
        w.pool.poolMode_ = .MODE_CACHED ∧
        w.pool.curThreadSize_ > w.pool.initThreadSize_ ∧
        w1.pool.curThreadSize_ = w.pool.curThreadSize_ - 1 ∧
        w1.pool.idleThreadSize_ = w.pool.idleThreadSize_ - 1 ∧ w1.busy = w.busy) ∨
      (w1.pool.taskQueue_ = w.pool.taskQueue_ ∧
        w1.pool.curThreadSize_ = w.pool.curThreadSize_ ∧
        w1.pool.idleThreadSize_ = w.pool.idleThreadSize_ + 1 ∧ w1.busy + 1 = w.busy)) := by
  unfold threadFunc_step at h
  split at h
  · cases h
  · rename_i k hk
    split at h
    · cases h
    · -- entry
      rename_i hpc
      simp only [Option.some.injEq] at h
      subst h
      refine ⟨rfl, rfl, rfl, rfl, rfl, Or.inl ⟨rfl, rfl, rfl, ?_⟩⟩
      unfold threadFunc_entry
      have h1 := busy_setPc (w.setLastTime i now) i _ .loopTest (setLastTime_get w i now k hk)
      rw [busy_setLastTime] at h1
      simp only [Worker.isBusy, hpc] at h1
      simpa using h1
    · -- loopTest
      rename_i hpc
      simp only [Option.some.injEq] at h
      subst h
      unfold threadFunc_loopTest
      split
      · refine ⟨rfl, rfl, rfl, rfl, rfl, Or.inl ⟨rfl, rfl, rfl, ?_⟩⟩
        have h1 := busy_setPc w i k .locked hk
        simp only [Worker.isBusy, hpc] at h1
        simpa using h1
      · refine ⟨rfl, rfl, rfl, rfl, rfl, Or.inl ⟨rfl, rfl, rfl, ?_⟩⟩
        unfold threadFunc_exit
        have h1 := busy_setPc
          (({ w with pool := { w.pool with
            threads_ := w.pool.threads_.erase k.threadId } }).notifyExit) i k .exited hk
        simp only [Worker.isBusy, hpc] at h1
        simpa using h1
    · -- locked
      rename_i hpc
      split at h
      · rename_i task rest hq
        simp only [Option.some.injEq] at h
        subst h
        have hp := threadFunc_dequeue_pool w i task rest
        have hw := threadFunc_dequeue_workers w i task rest
        simp only [hp]
        refine ⟨trivial, trivial, trivial, trivial, trivial,
          Or.inr (Or.inl ⟨task, hq, trivial, trivial, ?_⟩)⟩
        have h1 := busy_setPc w i k (.executing task) hk
        simp only [Worker.isBusy, hpc] at h1
        have h2 : (threadFunc_dequeue w i task rest).busy = (w.setPc i (.executing task)).busy := by
          unfold World.busy; rw [hw]; rfl
        rw [h2]
        simpa using h1
      · rename_i hq
        simp only [Option.some.injEq] at h
        subst h
        unfold threadFunc_afterWait
        split
        · rename_i hc
          refine ⟨rfl, rfl, rfl, rfl, rfl,
            Or.inr (Or.inr (Or.inl ⟨hq, hq, hc.1, hc.2.2.2, rfl, rfl, ?_⟩))⟩
          unfold threadFunc_reclaim
          have h1 := busy_setPc ({ w with pool := { w.pool with
              threads_ := w.pool.threads_.erase k.threadId
              curThreadSize_ := w.pool.curThreadSize_ - 1
              idleThreadSize_ := w.pool.idleThreadSize_ - 1 } }) i k .exited hk
          simp only [Worker.isBusy, hpc] at h1
          simpa using h1
        · split
          · refine ⟨rfl, rfl, rfl, rfl, rfl, Or.inl ⟨rfl, rfl, rfl, ?_⟩⟩
            unfold threadFunc_exit
            have h1 := busy_setPc
              (({ w with pool := { w.pool with
                threads_ := w.pool.threads_.erase k.threadId } }).notifyExit) i k .exited hk
            simp only [Worker.isBusy, hpc] at h1
            simpa using h1
          · exact ⟨rfl, rfl, rfl, rfl, rfl, Or.inl ⟨rfl, rfl, rfl, rfl⟩⟩
    · -- executing
      rename_i task hpc
      simp only [Option.some.injEq] at h
      subst h
      have hp := threadFunc_finish_pool w i task now
      have hw := threadFunc_finish_workers w i task now
      simp only [hp]
      refine ⟨trivial, trivial, trivial, trivial, trivial,
        Or.inr (Or.inr (Or.inr ⟨trivial, trivial, trivial, ?_⟩))⟩
      have h1 := busy_setPc (w.setLastTime i now) i _ .loopTest (setLastTime_get w i now k hk)
      rw [busy_setLastTime] at h1
      simp only [Worker.isBusy, hpc] at h1
      have h2 : (threadFunc_finish w i task now).busy =
          ((w.setLastTime i now).setPc i .loopTest).busy := by
        unfold World.busy; rw [hw]; rfl
      rw [h2]
      simp at h1
      omega

end

/-! ## Rejection of a task by a full queue (C2) -/

section
variable {U : Type} {UEl : U → Type}

/-- C2 (amended): in every pool state whose `taskQueMaxThreshHold_` is non-negative and
whose queue holds at least that many tasks when the wait of `submitTask` gives up,
`submitTask` enqueues nothing, leaves the whole pool object (queue, `taskSize_`,
`curThreadSize_`, `idleThreadSize_`, `threads_`), the threads and the signals unchanged
and returns a `Result` marked invalid; `get()` on it returns the `Any` built from the
empty C string at once, although a wait on its semaphore would block, and leaves the
`Result`, its semaphore included, unchanged. -/
theorem submitTask_full_rejects (w : World U UEl) (sp : Task)
    (h0 : 0 ≤ w.pool.taskQueMaxThreshHold_)
    (hfull : w.pool.taskQueMaxThreshHold_ ≤ (w.pool.taskQueue_.length : Int)) :
    ∃ w1 a r, submitTask w sp = some (w1, a) ∧
      w1.pool = w.pool ∧ w1.workers = w.workers ∧ w1.generateId_ = w.generateId_ ∧
      w1.signals = w.signals ∧ w1.dtor = w.dtor ∧
      w1.results[a]? = some r ∧ r.isValid_ = false ∧
      r.sem_ = Semaphore.new 0 ∧ r.sem_.wait = none ∧
      r.get = some (Any.of .constCharPtr "", r) := by
  have hle := toSizeT_le _ h0
  have hn : ¬ w.pool.taskQueue_.length < toSizeT w.pool.taskQueMaxThreshHold_ := by omega
  refine ⟨(Result.create w sp false).1, (Result.create w sp false).2,
    { any_ := Any.empty, sem_ := Semaphore.new 0, task_ := sp, isValid_ := false },
    ?_, rfl, rfl, rfl, rfl, rfl, ?_, rfl, rfl, rfl, rfl⟩
  · simp [submitTask, hn]
  · simp [Result.create]

end

/-- Witness of C2 (amended): a stopped pool with threshold 1 whose queue holds one task
rejects the next task. -/
theorem submitTask_full_rejects_witness :
    (0 : Int) ≤ (demoQueued 1 [3]).pool.taskQueMaxThreshHold_ ∧
    (demoQueued 1 [3]).pool.taskQueMaxThreshHold_ ≤
      ((demoQueued 1 [3]).pool.taskQueue_.length : Int) ∧
    ∃ w1 a r, submitTask (demoQueued 1 [3]) 4 = some (w1, a) ∧
      w1.pool = (demoQueued 1 [3]).pool ∧ w1.workers = (demoQueued 1 [3]).workers ∧
      w1.generateId_ = (demoQueued 1 [3]).generateId_ ∧
      w1.signals = (demoQueued 1 [3]).signals ∧ w1.dtor = (demoQueued 1 [3]).dtor ∧
      w1.results[a]? = some r ∧ r.isValid_ = false ∧
      r.sem_ = Semaphore.new 0 ∧ r.sem_.wait = none ∧
      r.get = some (Any.of .constCharPtr "", r) :=
  ⟨by decide, by decide, submitTask_full_rejects (demoQueued 1 [3]) 4 (by decide) (by decide)⟩

/-- Counterexample to C2 as stated: after `setTaskQueMaxThreshHold(-1)` on a stopped pool
the empty queue holds at least the configured capacity (`-1 ≤ 0`), yet `submitTask`
enqueues the task and returns a valid `Result` whose `get()` blocks, because the
threshold is compared after the conversion `(size_t)(-1) = 2 ^ 64 - 1`. -/
theorem submitTask_negative_threshold_example :
    (demoQueued (-1) []).pool.taskQueMaxThreshHold_ = -1 ∧
    (demoQueued (-1) []).pool.taskQueue_ = [] ∧
    (demoQueued (-1) []).pool.taskQueMaxThreshHold_ ≤
      ((demoQueued (-1) []).pool.taskQueue_.length : Int) ∧
    ∃ w1 a r, submitTask (demoQueued (-1) []) 4 = some (w1, a) ∧
      w1.pool.taskQueue_ = [4] ∧ w1.pool.taskSize_ = 1 ∧
      w1.results[a]? = some r ∧ r.isValid_ = true ∧ r.get = none :=
  ⟨rfl, rfl, by decide, _, _, _, rfl, rfl, rfl, rfl, rfl, rfl⟩

/-! ## The queue and its capacity (C4) -/

section
variable {U : Type} {UEl : U → Type}

/-- What the destructor changes. -/
theorem destroy_effect (w w1 : World U UEl) (h : destroy w = some w1) :
    w1.pool = { w.pool with isPoolRunning_ := false } ∧ w1.workers = w.workers := by
  unfold destroy at h
  split at h
  · simp only [Option.some.injEq] at h
    subst h
    exact ⟨rfl, rfl⟩
  · cases h

/-- What `setMode` keeps. -/
theorem setMode_effect (w : World U UEl) (m : PoolMode) :
    (setMode w m).workers = w.workers ∧
    (setMode w m).pool.taskQueue_ = w.pool.taskQueue_ ∧
    (setMode w m).pool.taskQueMaxThreshHold_ = w.pool.taskQueMaxThreshHold_ ∧
    (setMode w m).pool.curThreadSize_ = w.pool.curThreadSize_ ∧
    (setMode w m).pool.idleThreadSize_ = w.pool.idleThreadSize_ := by
  unfold setMode
  split <;> exact ⟨rfl, rfl, rfl, rfl, rfl⟩

/-- What `setTaskQueMaxThreshHold` changes. -/
theorem setTaskQueMaxThreshHold_effect (w : World U UEl) (t : Int) :
    (setTaskQueMaxThreshHold w t).workers = w.workers ∧
    (setTaskQueMaxThreshHold w t).pool.taskQueue_ = w.pool.taskQueue_ ∧
    (setTaskQueMaxThreshHold w t).pool.taskQueMaxThreshHold_ =
      (if w.pool.isPoolRunning_ then w.pool.taskQueMaxThreshHold_ else t) ∧
    (setTaskQueMaxThreshHold w t).pool.curThreadSize_ = w.pool.curThreadSize_ ∧
    (setTaskQueMaxThreshHold w t).pool.idleThreadSize_ = w.pool.idleThreadSize_ := by
  unfold setTaskQueMaxThreshHold checkRunningState
  split <;> exact ⟨rfl, rfl, rfl, rfl, rfl⟩

/-- What `setThreadSizeThreshHold` keeps. -/
theorem setThreadSizeThreshHold_effect (w : World U UEl) (t : Int) :
    (setThreadSizeThreshHold w t).workers = w.workers ∧
    (setThreadSizeThreshHold w t).pool.taskQueue_ = w.pool.taskQueue_ ∧
    (setThreadSizeThreshHold w t).pool.taskQueMaxThreshHold_ = w.pool.taskQueMaxThreshHold_ ∧
    (setThreadSizeThreshHold w t).pool.curThreadSize_ = w.pool.curThreadSize_ ∧
    (setThreadSizeThreshHold w t).pool.idleThreadSize_ = w.pool.idleThreadSize_ := by
  unfold setThreadSizeThreshHold
  split
  · exact ⟨rfl, rfl, rfl, rfl, rfl⟩
  · split <;> exact ⟨rfl, rfl, rfl, rfl, rfl⟩

/-- The bound on the queue is kept by every step that is allowed. -/
theorem queue_bound_step (w w1 : World U UEl) (s : Step) (hs : step w s = some w1)
    (ha : KeepsQueuedTasks w s)
    (hinv : (w.pool.taskQueue_.length : Int) ≤ w.pool.taskQueMaxThreshHold_) :
    (w1.pool.taskQueue_.length : Int) ≤ w1.pool.taskQueMaxThreshHold_ := by
  cases s with
  | setMode m =>
    simp only [step, Option.some.injEq] at hs
    subst hs
    obtain ⟨_, h1, h2, _⟩ := setMode_effect w m
    rw [h1, h2]; exact hinv
  | setTaskQueMaxThreshHold t =>
    simp only [step, Option.some.injEq] at hs
    subst hs
    obtain ⟨_, h1, h2, _⟩ := setTaskQueMaxThreshHold_effect w t
    rw [h1, h2]
    rcases ha t rfl with hr | hr
    · simp only [hr, if_true]; exact hinv
    · split
      · exact hinv
      · exact hr
  | setThreadSizeThreshHold t =>
    simp only [step, Option.some.injEq] at hs
    subst hs
    obtain ⟨_, h1, h2, _⟩ := setThreadSizeThreshHold_effect w t
    rw [h1, h2]; exact hinv
  | start n =>
    simp only [step] at hs
    obtain ⟨h1, h2, _⟩ := start_pool w w1 n hs
    rw [h1, h2]; exact hinv
  | submitTask sp =>
    simp only [step, Option.map_eq_some'] at hs
    obtain ⟨⟨w2, a⟩, hs, rfl⟩ := hs
    obtain ⟨_, _, _, _, hcap, _, _, _, _, hcase⟩ := submitTask_effect w w2 sp a hs
    rcases hcase with ⟨_, hp, _⟩ | ⟨hlt, hq, _⟩
    · simp only [hp]; exact hinv
    · simp only [hcap, hq, List.length_append, List.length_singleton]
      have h0 : 0 ≤ w.pool.taskQueMaxThreshHold_ := le_trans (Int.ofNat_nonneg _) hinv
      have := toSizeT_le _ h0
      omega
  | destroy =>
    simp only [step] at hs
    obtain ⟨h1, _⟩ := destroy_effect w w1 hs
    rw [h1]; exact hinv
  | worker i timedOut now =>
    simp only [step] at hs
    obtain ⟨hcap, _, _, _, _, hcase⟩ := threadFunc_step_effect w w1 i timedOut now hs
    rw [hcap]
    rcases hcase with ⟨hq, _⟩ | ⟨task, hq, _⟩ | ⟨_, hq, _⟩ | ⟨hq, _⟩
    · rw [hq]; exact hinv
    · rw [hq] at hinv; simp only [List.length_cons] at hinv; omega
    · rw [hq]; simp only [List.length_nil]
      exact le_trans (Int.ofNat_nonneg _) hinv
    · rw [hq]; exact hinv

/-- C4 (amended): in every state reachable from construction by steps (setters, `start`,
`submitTask`, the destructor, steps of threads) in which every call of
`setTaskQueMaxThreshHold` is made while the pool runs (and is ignored) or with a
threshold that is at least the number of queued tasks,
`taskQueue_.size() <= taskQueMaxThreshHold_`. -/
theorem queue_within_capacity (g : Int) (tasks : Task → TaskObj U UEl) (w : World U UEl)
    (h : Reach KeepsQueuedTasks (World.construct g tasks) w) :
    (w.pool.taskQueue_.length : Int) ≤ w.pool.taskQueMaxThreshHold_ := by
  induction h with
  | init => simp [World.construct, ThreadPool.new, TASK_MAX_THRESHHOLD]
  | next s _ ha hs ih => exact queue_bound_step _ _ s hs ha ih

end

/-- Counterexample to C4 as stated: two tasks are submitted to the stopped pool, then
`setTaskQueMaxThreshHold(1)` is called; the queue holds 2 tasks, the capacity is 1. -/
theorem queue_overfull_example :
    ∃ w, run (demoWorld 0) [.submitTask 1, .submitTask 2, .setTaskQueMaxThreshHold 1] = some w ∧
      w.pool.taskQueue_.length = 2 ∧ w.pool.taskQueMaxThreshHold_ = 1 ∧
      ¬ ((w.pool.taskQueue_.length : Int) ≤ w.pool.taskQueMaxThreshHold_) :=
  ⟨_, rfl, rfl, rfl, by decide⟩

/-- Witness of C4 (amended): threshold 2 is set on the empty queue, then two tasks are
submitted. -/
theorem queue_within_capacity_witness :
    ((demoQueued 2 [3, 4]).pool.taskQueue_.length : Int) ≤
      (demoQueued 2 [3, 4]).pool.taskQueMaxThreshHold_ :=
  queue_within_capacity 0 demoTasks (demoQueued 2 [3, 4])
    (Reach.next (.submitTask 4)
      (Reach.next (.submitTask 3)
        (Reach.next (.setTaskQueMaxThreshHold 2) Reach.init
          (fun t h => Or.inr (by cases h; decide)) rfl)
        (fun t h => by cases h) rfl)
      (fun t h => by cases h) rfl)

/-! ## Bounds on the number of threads (C5) -/

section
variable {U : Type} {UEl : U → Type}

/-- A call of `submitTask` leaves `curThreadSize_` unchanged or, in cached mode, raises it by
one to a value that is at most `threadSizeThreshHold_`. -/
theorem submitTask_cur (w w2 : World U UEl) (sp : Task) (a : Nat)
    (h : submitTask w sp = some (w2, a)) :
    w2.pool.curThreadSize_ = w.pool.curThreadSize_ ∨
      (w.pool.poolMode_ = .MODE_CACHED ∧
        w2.pool.curThreadSize_ = w.pool.curThreadSize_ + 1 ∧
        w2.pool.curThreadSize_ ≤ w2.pool.threadSizeThreshHold_) := by
  obtain ⟨_, _, _, _, _, _, hthr, _, _, hcase⟩ := submitTask_effect w w2 sp a h
  rcases hcase with ⟨_, hp, _⟩ | ⟨_, _, _, hc⟩
  · left; rw [hp]
  · rcases hc with ⟨hc, _⟩ | ⟨hm, hlt, hc, _⟩
    · left; exact hc
    · right; refine ⟨hm, hc, ?_⟩; rw [hthr, hc]; omega

/-- The bounds on `curThreadSize_` are kept by `submitTask` and by the steps of threads. -/
theorem thread_bounds_step (n : Int) (w w1 : World U UEl) (s : Step)
    (hs : step w s = some w1) (ha : SubmitOrWorker w s)
    (hinv : w.pool.initThreadSize_ = n ∧ n ≤ w.pool.curThreadSize_ ∧
      w.pool.curThreadSize_ ≤ max n w.pool.threadSizeThreshHold_ ∧
      (w.pool.poolMode_ = .MODE_FIXED → w.pool.curThreadSize_ = n)) :
    w1.pool.initThreadSize_ = n ∧ n ≤ w1.pool.curThreadSize_ ∧
      w1.pool.curThreadSize_ ≤ max n w1.pool.threadSizeThreshHold_ ∧
      (w1.pool.poolMode_ = .MODE_FIXED → w1.pool.curThreadSize_ = n) := by
  obtain ⟨hi, hlo, hhi, hfix⟩ := hinv
  cases s with
  | submitTask sp =>
    simp only [step, Option.map_eq_some'] at hs
    obtain ⟨⟨w2, a⟩, hs, rfl⟩ := hs
    obtain ⟨_, _, _, _, _, hinit, hthr, hmode, _, _⟩ := submitTask_effect w w2 sp a hs
    simp only [hinit, hthr, hmode]
    rcases submitTask_cur w w2 sp a hs with hc | ⟨hm, hc, hle⟩
    · rw [hc]; exact ⟨hi, hlo, hhi, hfix⟩
    · rw [hthr] at hle
      refine ⟨hi, by omega, le_trans hle (le_max_right _ _), ?_⟩
      intro hf; rw [hm] at hf; cases hf
  | worker i timedOut now =>
    simp only [step] at hs
    obtain ⟨_, hinit, hthr, hmode, _, hcase⟩ := threadFunc_step_effect w w1 i timedOut now hs
    simp only [hinit, hthr, hmode]
    rcases hcase with ⟨_, hc, _⟩ | ⟨_, _, hc, _⟩ | ⟨_, _, hm, hgt, hc, _⟩ |
      ⟨_, hc, _⟩
    · rw [hc]; exact ⟨hi, hlo, hhi, hfix⟩
    · rw [hc]; exact ⟨hi, hlo, hhi, hfix⟩
    · rw [hc]
      refine ⟨hi, by omega, by omega, ?_⟩
      intro hf; rw [hm] at hf; cases hf
    · rw [hc]; exact ⟨hi, hlo, hhi, hfix⟩
  | setMode m => rcases ha with h | h <;> cases h
  | setTaskQueMaxThreshHold t => rcases ha with h | h <;> cases h
  | setThreadSizeThreshHold t => rcases ha with h | h <;> cases h
  | start m => rcases ha with h | h <;> cases h
  | destroy => rcases ha with h | h <;> cases h

/-- The bounds on `curThreadSize_` along a sequence of such steps. -/
theorem thread_bounds_reach (n : Int) (w1 w : World U UEl)
    (hr : Reach SubmitOrWorker w1 w)
    (hinv : w1.pool.initThreadSize_ = n ∧ n ≤ w1.pool.curThreadSize_ ∧
      w1.pool.curThreadSize_ ≤ max n w1.pool.threadSizeThreshHold_ ∧
      (w1.pool.poolMode_ = .MODE_FIXED → w1.pool.curThreadSize_ = n)) :
    w.pool.initThreadSize_ = n ∧ n ≤ w.pool.curThreadSize_ ∧
      w.pool.curThreadSize_ ≤ max n w.pool.threadSizeThreshHold_ ∧
      (w.pool.poolMode_ = .MODE_FIXED → w.pool.curThreadSize_ = n) := by
  induction hr with
  | init => exact hinv
  | next s _ ha hs ih => exact thread_bounds_step n _ _ s hs ha ih

/-- C5 (amended): in every state reachable after `start(n)` by calls of `submitTask` and steps
of threads, `initThreadSize_ = n`, `initThreadSize_ <= curThreadSize_ <=
max(initThreadSize_, threadSizeThreshHold_)`, hence `curThreadSize_ <=
threadSizeThreshHold_` whenever `n <= threadSizeThreshHold_`; in fixed mode
`curThreadSize_ = initThreadSize_`; and a call of `submitTask` raises `curThreadSize_`
only in cached mode, by one, to a value that is at most `threadSizeThreshHold_`. -/
theorem thread_count_bounds (w0 w1 w : World U UEl) (n : Int) (hs : start w0 n = some w1)
    (hr : Reach SubmitOrWorker w1 w) :
    w.pool.initThreadSize_ = n ∧
    w.pool.initThreadSize_ ≤ w.pool.curThreadSize_ ∧
    w.pool.curThreadSize_ ≤ max w.pool.initThreadSize_ w.pool.threadSizeThreshHold_ ∧
    (w.pool.initThreadSize_ ≤ w.pool.threadSizeThreshHold_ →
      w.pool.curThreadSize_ ≤ w.pool.threadSizeThreshHold_) ∧
    (w.pool.poolMode_ = .MODE_FIXED → w.pool.curThreadSize_ = w.pool.initThreadSize_) ∧
    (∀ sp w2 a, submitTask w sp = some (w2, a) →
      w2.pool.curThreadSize_ = w.pool.curThreadSize_ ∨
        (w.pool.poolMode_ = .MODE_CACHED ∧
          w2.pool.curThreadSize_ = w.pool.curThreadSize_ + 1 ∧
          w2.pool.curThreadSize_ ≤ w2.pool.threadSizeThreshHold_)) := by
  obtain ⟨_, _, hi, hc, _, _, _, _, _⟩ := start_pool w0 w1 n hs
  have h := thread_bounds_reach n w1 w hr
    ⟨hi, by rw [hc], by rw [hc]; exact le_max_left _ _, fun _ => hc⟩
  obtain ⟨h1, h2, h3, h4⟩ := h
  refine ⟨h1, by rw [h1]; exact h2, by rw [h1]; exact h3, ?_, by rw [h1]; exact h4,
    fun sp w2 a hsub => submitTask_cur w w2 sp a hsub⟩
  intro hle
  rw [h1] at hle
  exact le_trans h3 (max_le hle le_rfl)

end

/-- Counterexample to C5 as stated: `start(11)` on a freshly constructed pool gives
`curThreadSize_ = 11` with `threadSizeThreshHold_ = 10`. -/
theorem thread_count_above_threshold_example :
    ∃ w, start (demoWorld 0) 11 = some w ∧ w.pool.curThreadSize_ = 11 ∧
      w.pool.threadSizeThreshHold_ = 10 ∧
      ¬ (w.pool.curThreadSize_ ≤ w.pool.threadSizeThreshHold_) :=
  ⟨_, rfl, rfl, rfl, by decide⟩

/-- Witness of C5 (amended): a cached-mode pool started with no thread creates one thread
for the first task: `initThreadSize_ = 0 <= curThreadSize_ = 1 <= threadSizeThreshHold_
= 10`. -/
theorem thread_count_bounds_witness :
    ((demoCached.after [.start 0]).after [.submitTask 7]).pool.initThreadSize_ = 0 ∧
    ((demoCached.after [.start 0]).after [.submitTask 7]).pool.curThreadSize_ = 1 ∧
    ((demoCached.after [.start 0]).after [.submitTask 7]).pool.threadSizeThreshHold_ = 10 ∧
    ((demoCached.after [.start 0]).after [.submitTask 7]).pool.initThreadSize_ ≤
      ((demoCached.after [.start 0]).after [.submitTask 7]).pool.curThreadSize_ ∧
    ((demoCached.after [.start 0]).after [.submitTask 7]).pool.curThreadSize_ ≤
      ((demoCached.after [.start 0]).after [.submitTask 7]).pool.threadSizeThreshHold_ :=
  have h := thread_count_bounds demoCached (demoCached.after [.start 0])
    ((demoCached.after [.start 0]).after [.submitTask 7]) 0 rfl
    (Reach.next (.submitTask 7) Reach.init (Or.inl rfl) rfl)
  ⟨h.1, rfl, rfl, h.2.1, h.2.2.2.1 (by decide)⟩

/-! ## Idle threads and current threads (C6) -/

section
variable {U : Type} {UEl : U → Type}

/-- A thread that has just been created is not busy. -/
theorem busy_append_entry (l : List Worker) (k : Worker) (hk : k.pc = .entry) :
    (l ++ [k]).countP Worker.isBusy = l.countP Worker.isBusy := by
  simp [List.countP_append, List.countP_cons, Worker.isBusy, hk]

/-- Idle threads plus busy threads never exceed `curThreadSize_`: kept by every step other
than `start`. -/
theorem idle_busy_step (w w1 : World U UEl) (s : Step) (hs : step w s = some w1)
    (ha : NotStart w s)
    (hinv : w.pool.idleThreadSize_ + w.busy ≤ w.pool.curThreadSize_) :
    w1.pool.idleThreadSize_ + w1.busy ≤ w1.pool.curThreadSize_ := by
  cases s with
  | setMode m =>
    simp only [step, Option.some.injEq] at hs
    subst hs
    obtain ⟨h0, _, _, h1, h2⟩ := setMode_effect w m
    unfold World.busy at hinv ⊢
    rw [h0, h1, h2]; exact hinv
  | setTaskQueMaxThreshHold t =>
    simp only [step, Option.some.injEq] at hs
    subst hs
    obtain ⟨h0, _, _, h1, h2⟩ := setTaskQueMaxThreshHold_effect w t
    unfold World.busy at hinv ⊢
    rw [h0, h1, h2]; exact hinv
  | setThreadSizeThreshHold t =>
    simp only [step, Option.some.injEq] at hs
    subst hs
    obtain ⟨h0, _, _, h1, h2⟩ := setThreadSizeThreshHold_effect w t
    unfold World.busy at hinv ⊢
    rw [h0, h1, h2]; exact hinv
  | start n => cases ha
  | submitTask sp =>
    simp only [step, Option.map_eq_some'] at hs
    obtain ⟨⟨w2, a⟩, hs, rfl⟩ := hs
    obtain ⟨_, _, _, _, _, _, _, _, _, hcase⟩ := submitTask_effect w w2 sp a hs
    unfold World.busy at hinv ⊢
    rcases hcase with ⟨_, hp, hw, _⟩ | ⟨_, _, _, hc⟩
    · simp only [hp, hw]; exact hinv
    · rcases hc with ⟨hc, hi, _, hw⟩ | ⟨_, _, hc, hi, k, hk, hw⟩
      · rw [hc, hi, hw]; exact hinv
      · rw [hc, hi, hw, busy_append_entry _ k hk]; omega
  | destroy =>
    simp only [step] at hs
    obtain ⟨h1, h2⟩ := destroy_effect w w1 hs
    unfold World.busy at hinv ⊢
    rw [h1, h2]; exact hinv
  | worker i timedOut now =>
    simp only [step] at hs
    obtain ⟨_, _, _, _, _, hcase⟩ := threadFunc_step_effect w w1 i timedOut now hs
    rcases hcase with ⟨_, hc, hi, hb⟩ | ⟨_, _, hc, hi, hb⟩ | ⟨_, _, _, _, hc, hi, hb⟩ |
      ⟨_, hc, hi, hb⟩ <;> omega

/-- A busy thread is inside the loop. -/
theorem busy_le_inLoop (l : List Worker) : l.countP Worker.isBusy ≤ l.countP Worker.inLoop := by
  apply List.countP_mono_left
  intro k _ h
  unfold Worker.isBusy at h
  unfold Worker.inLoop
  split at h <;> simp_all

/-- A step of a thread never resets the destructor state. -/
theorem threadFunc_step_dtor (w w1 : World U UEl) (i : Nat) (timedOut : Bool) (now : Int)
    (h : threadFunc_step w i timedOut now = some w1) (hd : w1.dtor = .notCalled) :
    w.dtor = .notCalled := by
  unfold threadFunc_step at h
  split at h
  · cases h
  · rename_i k hk
    have hexit : ∀ id, (threadFunc_exit w i id).dtor = .notCalled → w.dtor = .notCalled := by
      intro id hx
      simp only [threadFunc_exit, World.notifyExit, World.setPc] at hx
      split at hx
      · cases hx
      · exact hx
    split at h
    · cases h
    · simp only [Option.some.injEq] at h; subst h; exact hd
    · simp only [Option.some.injEq] at h; subst h
      unfold threadFunc_loopTest at hd
      split at hd
      · exact hd
      · exact hexit _ hd
    · split at h
      · simp only [Option.some.injEq] at h; subst h
        unfold threadFunc_dequeue at hd
        simp only at hd
        split at hd <;> exact hd
      · simp only [Option.some.injEq] at h; subst h
        unfold threadFunc_afterWait at hd
        split at hd
        · exact hd
        · split at hd
          · exact hexit _ hd
          · exact hd
    · rename_i task _
      simp only [Option.some.injEq] at h; subst h
      have : (threadFunc_finish w i task now).dtor = w.dtor := by
        simp only [threadFunc_finish, World.setPc, World.setLastTime]
        unfold Task.exec; split <;> rfl
      rw [this] at hd; exact hd

/-- Replacing `lastTime` keeps the number of threads inside the loop. -/
theorem inLoop_setLastTime (l : List Worker) (i : Nat) (now : Int) :
    (l.modify (fun k => { k with lastTime := now }) i).countP Worker.inLoop =
      l.countP Worker.inLoop := by
  cases hk : l[i]? with
  | none =>
    have : l.length ≤ i := by
      rcases Nat.lt_or_ge i l.length with h | h
      · simp [List.getElem?_eq_getElem h] at hk
      · exact h
    rw [List.modify_eq_self this]
  | some k =>
    have := countP_modify Worker.inLoop (fun k => { k with lastTime := now }) l i k hk
    simp only [Worker.inLoop] at this ⊢
    omega

/-- In a pool that does not run no thread enters the loop. -/
theorem threadFunc_step_unstarted (w w1 : World U UEl) (i : Nat) (timedOut : Bool) (now : Int)
    (h : threadFunc_step w i timedOut now = some w1) (hrun : w.pool.isPoolRunning_ = false)
    (hz : w.workers.countP Worker.inLoop = 0) : w1.workers.countP Worker.inLoop = 0 := by
  unfold threadFunc_step at h
  split at h
  · cases h
  · rename_i k hk
    have hkz : k.inLoop = false := by
      by_contra hc
      have hc' : k.inLoop = true := by simpa using hc
      have hmem : k ∈ w.workers := List.getElem?_mem hk
      have : 0 < w.workers.countP Worker.inLoop := List.countP_pos_iff.2 ⟨k, hmem, hc'⟩
      omega
    have hset : ∀ (w2 : World U UEl) (pc : Pc), w2.workers = w.workers →
        Worker.inLoop { k with pc := pc } = false →
        (w2.setPc i pc).workers.countP Worker.inLoop = 0 := by
      intro w2 pc hw hp
      have := countP_modify Worker.inLoop (fun k => { k with pc := pc }) w.workers i k hk
      rw [hkz, hp] at this
      simp only [World.setPc, hw]
      simp only [Bool.false_eq_true, if_false, Nat.add_zero] at this
      omega
    split at h
    · cases h
    · -- entry
      simp only [Option.some.injEq] at h; subst h
      have := countP_modify Worker.inLoop (fun k => { k with pc := Pc.loopTest })
        (w.workers.modify (fun k => { k with lastTime := now }) i) i { k with lastTime := now }
        (by simp [hk])
      rw [inLoop_setLastTime] at this
      have e1 : Worker.inLoop { k with lastTime := now } = false := hkz
      have e2 : Worker.inLoop { threadId := k.threadId, lastTime := now, pc := Pc.loopTest } =
        false := rfl
      simp only [e1, e2, Bool.false_eq_true, if_false, Nat.add_zero] at this
      simp only [threadFunc_entry, World.setPc, World.setLastTime]
      omega
    · -- loopTest
      simp only [Option.some.injEq] at h; subst h
      simp only [threadFunc_loopTest, hrun, Bool.false_eq_true, if_false]
      exact hset _ .exited rfl rfl
    · -- locked
      rename_i hpc
      simp [Worker.inLoop, hpc] at hkz
    · rename_i task hpc
      simp [Worker.inLoop, hpc] at hkz

/-- The setters keep the flag, the destructor state and the threads. -/
theorem setters_keep (w : World U UEl) (m : PoolMode) (t : Int) :
    ((setMode w m).pool.isPoolRunning_ = w.pool.isPoolRunning_ ∧
        (setMode w m).dtor = w.dtor) ∧
      ((setTaskQueMaxThreshHold w t).pool.isPoolRunning_ = w.pool.isPoolRunning_ ∧
        (setTaskQueMaxThreshHold w t).dtor = w.dtor) ∧
      ((setThreadSizeThreshHold w t).pool.isPoolRunning_ = w.pool.isPoolRunning_ ∧
        (setThreadSizeThreshHold w t).dtor = w.dtor) := by
  refine ⟨?_, ?_, ?_⟩
  · unfold setMode; split <;> exact ⟨rfl, rfl⟩
  · unfold setTaskQueMaxThreshHold; split <;> exact ⟨rfl, rfl⟩
  · unfold setThreadSizeThreshHold
    split
    · exact ⟨rfl, rfl⟩
    · split <;> exact ⟨rfl, rfl⟩

/-- Once the destructor has begun it has been called. -/
theorem destroy_dtor (w w1 : World U UEl) (h : destroy w = some w1) : w1.dtor ≠ .notCalled := by
  unfold destroy at h
  split at h
  · simp only [Option.some.injEq] at h
    subst h
    simp only [World.notify]
    split <;> simp
  · cases h

/-- Idle threads plus busy threads never exceed `curThreadSize_`, and no thread of a pool
that has not been started is inside the loop: kept by every step when `start` is called
as `StartsFresh` demands. -/
theorem idle_inv_step (w w1 : World U UEl) (s : Step) (hs : step w s = some w1)
    (ha : StartsFresh w s)
    (hinv : w.pool.idleThreadSize_ + w.busy ≤ w.pool.curThreadSize_ ∧
      (Unstarted w → w.workers.countP Worker.inLoop = 0)) :
    w1.pool.idleThreadSize_ + w1.busy ≤ w1.pool.curThreadSize_ ∧
      (Unstarted w1 → w1.workers.countP Worker.inLoop = 0) := by
  obtain ⟨h1, h2⟩ := hinv
  cases s with
  | start n =>
    obtain ⟨hn, hr, hd, hi⟩ := ha n rfl
    simp only [step] at hs
    obtain ⟨_, _, _, hc, hidle, _, _, hrun, hb⟩ := start_pool w w1 n hs
    have hz := h2 ⟨hr, hd⟩
    have hbz : w.busy = 0 := by
      have := busy_le_inLoop w.workers
      unfold World.busy; omega
    refine ⟨?_, fun hu => ?_⟩
    · rw [hc, hidle, hb, hi, hbz, Int.toNat_of_nonneg hn]; simp
    · rw [hu.1] at hrun; cases hrun
  | setMode m =>
    refine ⟨idle_busy_step w w1 _ hs rfl h1, fun hu => ?_⟩
    simp only [step, Option.some.injEq] at hs
    subst hs
    obtain ⟨⟨e1, e2⟩, _, _⟩ := setters_keep w m 0
    rw [(setMode_effect w m).1]
    exact h2 ⟨by rw [← e1]; exact hu.1, by rw [← e2]; exact hu.2⟩
  | setTaskQueMaxThreshHold t =>
    refine ⟨idle_busy_step w w1 _ hs rfl h1, fun hu => ?_⟩
    simp only [step, Option.some.injEq] at hs
    subst hs
    obtain ⟨_, ⟨e1, e2⟩, _⟩ := setters_keep w .MODE_FIXED t
    rw [(setTaskQueMaxThreshHold_effect w t).1]
    exact h2 ⟨by rw [← e1]; exact hu.1, by rw [← e2]; exact hu.2⟩
  | setThreadSizeThreshHold t =>
    refine ⟨idle_busy_step w w1 _ hs rfl h1, fun hu => ?_⟩
    simp only [step, Option.some.injEq] at hs
    subst hs
    obtain ⟨_, _, ⟨e1, e2⟩⟩ := setters_keep w .MODE_FIXED t
    rw [(setThreadSizeThreshHold_effect w t).1]
    exact h2 ⟨by rw [← e1]; exact hu.1, by rw [← e2]; exact hu.2⟩
  | submitTask sp =>
    refine ⟨idle_busy_step w w1 _ hs rfl h1, fun hu => ?_⟩
    simp only [step, Option.map_eq_some'] at hs
    obtain ⟨⟨w2, a⟩, hs, rfl⟩ := hs
    obtain ⟨_, _, _, hd, _, _, _, _, hr, hcase⟩ := submitTask_effect w w2 sp a hs
    have hz := h2 ⟨by rw [← hr]; exact hu.1, by rw [← hd]; exact hu.2⟩
    rcases hcase with ⟨_, _, hw, _⟩ | ⟨_, _, _, hc⟩
    · simp only [hw]; exact hz
    · rcases hc with ⟨_, _, _, hw⟩ | ⟨_, _, _, _, k, hk, hw⟩
      · simp only [hw]; exact hz
      · simp only [hw]
        simp [List.countP_append, List.countP_cons, Worker.inLoop, hk, hz]
  | destroy =>
    refine ⟨idle_busy_step w w1 _ hs rfl h1, fun hu => ?_⟩
    simp only [step] at hs
    exact absurd hu.2 (destroy_dtor w w1 hs)
  | worker i timedOut now =>
    refine ⟨idle_busy_step w w1 _ hs rfl h1, fun hu => ?_⟩
    simp only [step] at hs
    obtain ⟨_, _, _, _, hr, _⟩ := threadFunc_step_effect w w1 i timedOut now hs
    have hrun : w.pool.isPoolRunning_ = false := by rw [← hr]; exact hu.1
    have hd := threadFunc_step_dtor w w1 i timedOut now hs hu.2
    exact threadFunc_step_unstarted w w1 i timedOut now hs hrun (h2 ⟨hrun, hd⟩)

/-- C6 (amended): in every state reachable from construction by any sequence of setters,
`start`, `submitTask`, steps of threads (dequeue, task completion, idle-timeout
reclamation, exit on shutdown) and the destructor in which every call `start(n)` has
`n >= 0` and is made on a pool that is stopped, whose destructor has not begun and whose
`idleThreadSize_` is 0 (so `start` is called at most once and not after a `submitTask`
that created a thread), `idleThreadSize_ <= curThreadSize_`. -/
theorem idle_le_current (g : Int) (tasks : Task → TaskObj U UEl) (w : World U UEl)
    (h : Reach StartsFresh (World.construct g tasks) w) :
    w.pool.idleThreadSize_ ≤ w.pool.curThreadSize_ := by
  have hJ : w.pool.idleThreadSize_ + w.busy ≤ w.pool.curThreadSize_ ∧
      (Unstarted w → w.workers.countP Worker.inLoop = 0) := by
    induction h with
    | init => exact ⟨by simp [World.construct, ThreadPool.new, World.busy], fun _ => rfl⟩
    | next s _ ha hs ih => exact idle_inv_step _ _ s hs ha ih
  omega

end

/-- Witness of C6 (amended): `start(1)` on the fresh pool, then `demoSchedule`. -/
theorem idle_le_current_witness :
    (demoStarted.after demoSchedule).pool.idleThreadSize_ ≤
      (demoStarted.after demoSchedule).pool.curThreadSize_ :=
  idle_le_current 0 demoTasks (demoStarted.after demoSchedule)
    (Reach.next (.worker 0 false 5)
      (Reach.next (.submitTask 8)
        (Reach.next (.worker 0 false 0)
          (Reach.next (.worker 0 false 0)
            (Reach.next (.worker 0 false 0)
              (Reach.next (.submitTask 7)
                (Reach.next (.start 1) Reach.init
                  (fun n h => by cases h; exact ⟨by decide, rfl, rfl, rfl⟩) rfl)
                (fun n h => by cases h) rfl)
              (fun n h => by cases h) rfl)
            (fun n h => by cases h) rfl)
          (fun n h => by cases h) rfl)
        (fun n h => by cases h) rfl)
      (fun n h => by cases h) rfl)

/-- Counterexample to C6 as stated: `setMode(MODE_CACHED)`, `submitTask`, `start(0)`: the
call of `submitTask` creates a thread and counts it idle, `start(0)` then resets
`curThreadSize_` to 0 and keeps `idleThreadSize_ = 1`. -/
theorem idle_above_current_example :
    ∃ w, run (demoWorld 0) [.setMode .MODE_CACHED, .submitTask 5, .start 0] = some w ∧
      w.pool.idleThreadSize_ = 1 ∧ w.pool.curThreadSize_ = 0 ∧
      ¬ (w.pool.idleThreadSize_ ≤ w.pool.curThreadSize_) :=
  ⟨_, rfl, rfl, rfl, by decide⟩

/-! ## The member `start` and the identifiers of threads (C7) -/

section
variable {U : Type} {UEl : U → Type}

/-- The registry of `k + 1` fresh threads. -/
theorem Registry.fresh_succ (g : Int) (k : Nat) :
    Registry.fresh g (k + 1) =
      Registry.fresh g k ++ [((g + (k : Int)), some { threadId_ := g + (k : Int) })] := by
  simp [Registry.fresh, List.range_succ]

/-- Lookup in a registry of fresh threads. -/
theorem Registry.lookup_fresh (g : Int) (k : Nat) (x : Int) :
    (Registry.fresh g k).lookup x =
      if g ≤ x ∧ x < g + k then some (some { threadId_ := x }) else none := by
  induction k with
  | zero =>
    have : ¬ (g ≤ x ∧ x < g + ((0 : Nat) : Int)) := by omega
    rw [if_neg this]
    rfl
  | succ k ih =>
    rw [Registry.fresh_succ]
    unfold Registry.lookup at ih ⊢
    rw [List.find?_append]
    by_cases h : g ≤ x ∧ x < g + k
    · have h2 : g ≤ x ∧ x < g + ((k + 1 : Nat) : Int) := ⟨h.1, by push_cast; omega⟩
      rw [if_pos h] at ih
      rw [if_pos h2]
      simp only [Option.map_eq_some'] at ih
      obtain ⟨e, he, he2⟩ := ih
      simp [he, he2]
    · rw [if_neg h] at ih
      simp only [Option.map_eq_none'] at ih
      rw [ih]
      by_cases hx : x = g + k
      · subst hx
        have h2 : g ≤ g + (k : Int) ∧ g + (k : Int) < g + ((k + 1 : Nat) : Int) :=
          ⟨by omega, by push_cast; omega⟩
        rw [if_pos h2]
        simp
      · have h2 : ¬ (g ≤ x ∧ x < g + ((k + 1 : Nat) : Int)) := by push_cast; omega
        rw [if_neg h2]
        have hx2 : ¬ g + (k : Int) = x := fun e => hx e.symm
        simp [hx2]

/-- The first loop of `start` extends a registry of fresh threads. -/
theorem start_createLoop_fresh (g : Int) (k : Nat) :
    ∀ (j : Nat) (w : World U UEl), w.pool.threads_ = Registry.fresh g j →
      w.generateId_ = g + j →
      (start_createLoop k w).pool.threads_ = Registry.fresh g (j + k) := by
  induction k with
  | zero => intro j w h _; simpa [start_createLoop] using h
  | succ k ih =>
    intro j w h hg
    rw [start_createLoop]
    simp only [Thread.create]
    rw [show j + (k + 1) = (j + 1) + k by omega]
    apply ih (j + 1)
    · simp only
      unfold Registry.emplace
      rw [h, hg, Registry.lookup_fresh, if_neg (by omega), Registry.fresh_succ]
    · simp only; rw [hg]; push_cast; omega

/-- The second loop of `start` on the registry of the threads `0, ..., n - 1` is defined and
launches each thread it visits. -/
theorem start_launchLoop_fresh (n : Nat) (k : Nat) :
    ∀ (i : Nat) (w : World U UEl), w.pool.threads_ = Registry.fresh 0 n → i + k = n →
      ∃ w1, start_launchLoop k (i : Int) w = some w1 ∧
        w1.pool.threads_ = Registry.fresh 0 n ∧
        w1.workers = w.workers ++ launchedWorkers i k := by
  induction k with
  | zero =>
    intro i w h _
    exact ⟨w, rfl, h, by simp [launchedWorkers]⟩
  | succ k ih =>
    intro i w h hik
    rw [start_launchLoop]
    have hl : w.pool.threads_.lookup (i : Int) = some (some { threadId_ := (i : Int) }) := by
      rw [h, Registry.lookup_fresh, if_pos (by omega)]
    have hidx : w.pool.threads_.index (i : Int) =
        (w.pool.threads_, some { threadId_ := (i : Int) }) := by
      unfold Registry.index; rw [hl]
    rw [hidx]
    simp only
    obtain ⟨w1, h1, h2, h3⟩ := ih (i + 1)
      { Thread.start w { threadId_ := (i : Int) } with
        pool := { (Thread.start w { threadId_ := (i : Int) }).pool with
          idleThreadSize_ :=
            (Thread.start w { threadId_ := (i : Int) }).pool.idleThreadSize_ + 1 } }
      h (by omega)
    refine ⟨w1, ?_, h2, ?_⟩
    · rw [← h1]; push_cast; rfl
    · rw [h3]
      simp [Thread.start, launchedWorkers, List.range'_succ]

/-- In a process that has created no thread yet (`Thread::generateId_ = 0`), `start(n)`
with `n ≥ 0` on a freshly constructed pool is defined, sets the flag, records `n`, sets
both counters to `n`, registers exactly the threads `0, ..., n - 1` and launches each of
them once. -/
theorem start_first_pool (tasks : Task → TaskObj U UEl) (n : Nat) :
    ∃ w, start (World.construct 0 tasks) (n : Int) = some w ∧
      w.pool.isPoolRunning_ = true ∧ w.pool.initThreadSize_ = n ∧
      w.pool.curThreadSize_ = n ∧ w.pool.idleThreadSize_ = n ∧
      w.pool.threads_ = Registry.fresh 0 n ∧ w.pool.threads_.length = n ∧
      w.workers = launchedWorkers 0 n := by
  have hc : (start_create (World.construct 0 tasks) (n : Int)).pool.threads_ =
      Registry.fresh 0 n := by
    unfold start_create
    rw [Int.toNat_ofNat]
    have := @start_createLoop_fresh U UEl 0 n 0
      { World.construct 0 tasks with pool := { (World.construct 0 tasks).pool with
          isPoolRunning_ := true
          initThreadSize_ := (n : Int)
          curThreadSize_ := (n : Int) } }
        (by simp [World.construct, ThreadPool.new, Registry.fresh])
        (by simp [World.construct])
    simpa using this
  obtain ⟨w, hw, hreg, hwk⟩ := start_launchLoop_fresh n n 0 _ hc (by omega)
  have hs : start (World.construct 0 tasks) (n : Int) = some w := by
    unfold start; rw [Int.toNat_ofNat]; exact hw
  obtain ⟨_, _, hi, hcur, hidle, _, _, hrun, _⟩ := start_pool _ w _ hs
  refine ⟨w, hs, hrun, hi, hcur, ?_, hreg, ?_, ?_⟩
  · rw [hidle]; simp [World.construct, ThreadPool.new]
  · rw [hreg]; unfold Registry.fresh; rw [List.length_map, List.length_range]
  · rw [hwk]
    have : (start_create (World.construct 0 tasks) (n : Int)).workers = [] := by
      unfold start_create; rw [start_createLoop_frame]; rfl
    rw [this]; simp

end

/-- C7, the code at a failing input: a freshly constructed pool in a process whose
`Thread::generateId_` is 1 (one thread was created before) calls `start(1)`: the first loop
registers the new thread under key 1, key 0 is missing, no thread has been launched, and
the second loop dereferences the null pointer that `threads_[0]` inserts. -/
theorem start_second_pool_null_deref :
    (start_create (demoWorld 1) 1).pool.threads_ = [(1, some { threadId_ := 1 })] ∧
    (start_create (demoWorld 1) 1).pool.threads_.lookup 0 = none ∧
    (start_create (demoWorld 1) 1).workers = [] ∧
    start (demoWorld 1) 1 = none :=
  ⟨rfl, rfl, rfl, rfl⟩

/-! ## Exits of threads and the destructor (C9) -/

section
variable {U : Type} {UEl : U → Type}

/-- A thread that has not returned can always take a step. -/
theorem threadFunc_step_defined (w : World U UEl) (i : Nat) (k : Worker) (timedOut : Bool)
    (now : Int) (hk : w.workers[i]? = some k) (hpc : k.pc ≠ .exited) :
    ∃ w1, threadFunc_step w i timedOut now = some w1 := by
  unfold threadFunc_step
  rw [hk]
  simp only
  split
  · rename_i h; exact absurd h hpc
  · exact ⟨_, rfl⟩
  · exact ⟨_, rfl⟩
  · split <;> exact ⟨_, rfl⟩
  · exact ⟨_, rfl⟩

/-- The two exits taken on shutdown call `exitCond_.notify_all()`, and a destructor that
waits returns when they empty the registry. -/
theorem threadFunc_exit_signals (w : World U UEl) (i : Nat) (threadId : Int) :
    (threadFunc_exit w i threadId).signals = w.signals ++ [CondVar.exitCond] ∧
    (threadFunc_exit w i threadId).pool.threads_ = w.pool.threads_.erase threadId ∧
    (w.dtor = .waiting → w.pool.threads_.erase threadId = [] →
      (threadFunc_exit w i threadId).dtor = .returned) := by
  refine ⟨rfl, rfl, fun h1 h2 => ?_⟩
  simp [threadFunc_exit, World.notifyExit, World.setPc, h1, h2]

/-- The idle-timeout exit calls no `notify_all` and leaves the destructor where it is. -/
theorem threadFunc_reclaim_silent (w : World U UEl) (i : Nat) (threadId : Int) :
    (threadFunc_reclaim w i threadId).signals = w.signals ∧
    (threadFunc_reclaim w i threadId).pool.threads_ = w.pool.threads_.erase threadId ∧
    (threadFunc_reclaim w i threadId).dtor = w.dtor :=
  ⟨rfl, rfl, rfl⟩

end

/-- C9, the code at a failing input: the destructor of a cached-mode pool has cleared the
flag and waits on `exitCond_` while the registry holds thread 0; the wait of that thread
times out ten seconds after its last task, the thread takes the idle-timeout exit
(`curThreadSize_ = 1 > initThreadSize_ = 0`), the registry becomes empty, no
`exitCond_.notify_all()` is made and the destructor is still waiting. -/
theorem reclaim_without_exit_signal :
    demoStopping.pool.isPoolRunning_ = false ∧
    demoStopping.pool.threads_ = [(0, some { threadId_ := 0 })] ∧
    demoStopping.dtor = .waiting ∧
    demoStopping.workers = [{ threadId := 0, lastTime := 5, pc := .locked }] ∧
    ∃ w, step demoStopping (.worker 0 true 10000000005) = some w ∧
      w.workers = [{ threadId := 0, lastTime := 5, pc := .exited }] ∧
      w.pool.threads_ = [] ∧
      w.signals = demoStopping.signals ∧
      CondVar.exitCond ∉ w.signals ∧
      w.dtor = .waiting :=
  ⟨rfl, rfl, rfl, rfl, _, rfl, rfl, rfl, rfl, by decide, rfl⟩

/-! ## Delivery of results (C1) -/

section
variable {U : Type} {UEl : U → Type}

/-- A key that is found is an entry of the map. -/
theorem Registry.lookup_some_mem (m : Registry) (k : Int) (p : Option Thread)
    (h : m.lookup k = some p) : (k, p) ∈ m := by
  unfold Registry.lookup at h
  simp only [Option.map_eq_some'] at h
  obtain ⟨e, he, rfl⟩ := h
  have h1 := List.mem_of_find?_eq_some he
  have h2 := List.find?_some he
  simp only [beq_iff_eq] at h2
  subst h2
  exact h1

/-- After `emplace` the key is present. -/
theorem Registry.lookup_emplace (m : Registry) (k : Int) (ptr : Thread) :
    ∃ p, (m.emplace k ptr).lookup k = some p := by
  unfold Registry.emplace
  cases h : m.lookup k with
  | some p => exact ⟨p, by simp only [h]⟩
  | none =>
    refine ⟨some ptr, ?_⟩
    simp only
    unfold Registry.lookup at h ⊢
    simp only [Option.map_eq_none'] at h
    simp [List.find?_append, h]

/-- The call `emplace` inserts no null pointer. -/
theorem NoNullThread.emplace (m : Registry) (k : Int) (ptr : Thread) (h : NoNullThread m) :
    NoNullThread (m.emplace k ptr) := by
  unfold Registry.emplace
  split
  · exact h
  · intro e he
    simp only [List.mem_append, List.mem_singleton] at he
    rcases he with he | he
    · exact h e he
    · subst he; simp

/-- The call `erase` inserts no null pointer. -/
theorem NoNullThread.erase (m : Registry) (k : Int) (h : NoNullThread m) :
    NoNullThread (m.erase k) := by
  intro e he
  unfold Registry.erase at he
  exact h e (List.mem_of_mem_filter he)

/-- With no null pointer in the registry `submitTask_grow` is defined and leaves none. -/
theorem submitTask_grow_defined (w : World U UEl) (h : NoNullThread w.pool.threads_) :
    ∃ w1, submitTask_grow w = some w1 ∧ NoNullThread w1.pool.threads_ := by
  unfold submitTask_grow
  split
  · simp only [Thread.create]
    obtain ⟨p, hp⟩ := Registry.lookup_emplace w.pool.threads_ w.generateId_ ⟨w.generateId_⟩
    have hne := NoNullThread.emplace w.pool.threads_ w.generateId_ ⟨w.generateId_⟩ h
    have hmem := Registry.lookup_some_mem _ _ _ hp
    have hidx : (w.pool.threads_.emplace w.generateId_ ⟨w.generateId_⟩).index w.generateId_ =
        (w.pool.threads_.emplace w.generateId_ ⟨w.generateId_⟩, p) := by
      unfold Registry.index; rw [hp]
    rw [hidx]
    cases p with
    | none => exact absurd rfl (hne _ hmem)
    | some th => exact ⟨_, rfl, hne⟩
  · exact ⟨w, rfl, h⟩

end

section
variable {U : Type} {UEl : U → Type}

/-- With no null pointer in the registry `submitTask` is defined and leaves none. -/
theorem submitTask_defined (w : World U UEl) (sp : Task) (h : NoNullThread w.pool.threads_) :
    ∃ w1 a, submitTask w sp = some (w1, a) ∧ NoNullThread w1.pool.threads_ := by
  unfold submitTask
  split
  · simp only
    obtain ⟨w2, hw2, hn⟩ := submitTask_grow_defined
      (({ w with pool := { w.pool with
                  taskQueue_ := w.pool.taskQueue_ ++ [sp]
                  taskSize_ := w.pool.taskSize_ + 1 } }).notify .notEmpty) h
    rw [hw2]
    exact ⟨_, _, rfl, hn⟩
  · exact ⟨_, _, rfl, h⟩

/-- A call of `submitTask` inserts no null pointer. -/
theorem submitTask_keeps_noNull (w w1 : World U UEl) (sp : Task) (a : Nat)
    (h : NoNullThread w.pool.threads_) (hs : submitTask w sp = some (w1, a)) :
    NoNullThread w1.pool.threads_ := by
  obtain ⟨w2, b, h2, hn⟩ := submitTask_defined w sp h
  rw [h2] at hs
  simp only [Option.some.injEq, Prod.mk.injEq] at hs
  rw [← hs.1]; exact hn

/-- Whether a thread holds a task is read off its program point. -/
theorem holds_of_pc (t : Task) (k : Worker) (pc : Pc) :
    Worker.holds t { k with pc := pc } =
      (match pc with | .executing t1 => t1 == t | _ => false) := by
  unfold Worker.holds; rfl

/-- The number of threads holding a task after a program point has been replaced. -/
theorem countP_holds_setPc (l : List Worker) (i : Nat) (k : Worker) (pc : Pc) (t : Task)
    (hk : l[i]? = some k) :
    (l.modify (fun k => { k with pc := pc }) i).countP (Worker.holds t) +
        (if Worker.holds t k then 1 else 0) =
      l.countP (Worker.holds t) + (if Worker.holds t { k with pc := pc } then 1 else 0) :=
  countP_modify (Worker.holds t) _ l i k hk

/-- Replacing `lastTime` keeps the number of threads holding a task. -/
theorem countP_holds_setLastTime (l : List Worker) (i : Nat) (now : Int) (t : Task) :
    (l.modify (fun k => { k with lastTime := now }) i).countP (Worker.holds t) =
      l.countP (Worker.holds t) := by
  cases hk : l[i]? with
  | none =>
    have : l.length ≤ i := by
      rcases Nat.lt_or_ge i l.length with h | h
      · simp [List.getElem?_eq_getElem h] at hk
      · exact h
    rw [List.modify_eq_self this]
  | some k =>
    have := countP_modify (Worker.holds t) (fun k => { k with lastTime := now }) l i k hk
    simp only [Worker.holds] at this ⊢
    omega

/-- Pending count when a non-holding worker moves to a non-holding point. -/
theorem countP_holds_idle (l : List Worker) (i : Nat) (k : Worker) (pc : Pc) (t : Task)
    (hk : l[i]? = some k) (h1 : k.isBusy = false) (h2 : Worker.isBusy { k with pc := pc } = false) :
    (l.modify (fun k => { k with pc := pc }) i).countP (Worker.holds t) =
      l.countP (Worker.holds t) := by
  have := countP_holds_setPc l i k pc t hk
  have e1 : Worker.holds t k = false := by
    unfold Worker.holds; unfold Worker.isBusy at h1
    split <;> simp_all
  have e2 : Worker.holds t { k with pc := pc } = false := by
    unfold Worker.holds; unfold Worker.isBusy at h2
    split <;> simp_all
  rw [e1, e2] at this
  simpa using this

end

section
variable {U : Type} {UEl : U → Type}

/-- The member `Task::exec` keeps the task objects. -/
theorem Task.exec_tasks (w : World U UEl) (task : Task) : (Task.exec w task).tasks = w.tasks := by
  unfold Task.exec; split <;> rfl

/-- The exits of `threadFunc` insert no null pointer. -/
theorem threadFunc_exit_noNull (w : World U UEl) (i : Nat) (id : Int)
    (h : NoNullThread w.pool.threads_) : NoNullThread (threadFunc_exit w i id).pool.threads_ :=
  NoNullThread.erase _ id h

/-- What one step of a thread changes in the `Result` objects and the pending tasks. -/
theorem threadFunc_step_deliver (w w1 : World U UEl) (i : Nat) (timedOut : Bool) (now : Int)
    (h : threadFunc_step w i timedOut now = some w1) :
    w1.tasks = w.tasks ∧
    (NoNullThread w.pool.threads_ → NoNullThread w1.pool.threads_) ∧
    ((w1.results = w.results ∧ ∀ t, w1.pending t = w.pending t) ∨
      (∃ task, 1 ≤ w.pending task ∧ w1.results = (Task.exec w task).results ∧
        ∀ t, w1.pending t + (if task = t then 1 else 0) = w.pending t)) := by
  unfold threadFunc_step at h
  split at h
  · cases h
  · rename_i k hk
    split at h
    · cases h
    · -- entry
      rename_i hpc
      simp only [Option.some.injEq] at h
      subst h
      refine ⟨rfl, fun hn => hn, Or.inl ⟨rfl, fun t => ?_⟩⟩
      show w.pool.taskQueue_.count t + _ = w.pool.taskQueue_.count t + _
      congr 1
      show ((w.workers.modify (fun k => { k with lastTime := now }) i).modify
        (fun k => { k with pc := .loopTest }) i).countP (Worker.holds t) = _
      rw [countP_holds_idle _ i { k with lastTime := now } .loopTest t (by simp [hk])
        (by simp [Worker.isBusy, hpc]) (by simp [Worker.isBusy]), countP_holds_setLastTime]
    · -- loopTest
      rename_i hpc
      simp only [Option.some.injEq] at h
      subst h
      unfold threadFunc_loopTest
      split
      · refine ⟨rfl, fun hn => hn, Or.inl ⟨rfl, fun t => ?_⟩⟩
        show w.pool.taskQueue_.count t + _ = w.pool.taskQueue_.count t + _
        congr 1
        exact countP_holds_idle _ i k .locked t hk (by simp [Worker.isBusy, hpc])
          (by simp [Worker.isBusy])
      · refine ⟨rfl, threadFunc_exit_noNull w i _, Or.inl ⟨rfl, fun t => ?_⟩⟩
        show w.pool.taskQueue_.count t + _ = w.pool.taskQueue_.count t + _
        congr 1
        exact countP_holds_idle _ i k .exited t hk (by simp [Worker.isBusy, hpc])
          (by simp [Worker.isBusy])
    · -- locked
      rename_i hpc
      split at h
      · rename_i task rest hq
        simp only [Option.some.injEq] at h
        subst h
        have hp := threadFunc_dequeue_pool w i task rest
        have hw := threadFunc_dequeue_workers w i task rest
        refine ⟨?_, ?_, Or.inl ⟨?_, fun t => ?_⟩⟩
        · unfold threadFunc_dequeue; simp only; split <;> rfl
        · rw [hp]; exact fun hn => hn
        · unfold threadFunc_dequeue; simp only; split <;> rfl
        · unfold World.pending
          rw [hp, hw, hq]
          have := countP_holds_setPc w.workers i k (.executing task) t hk
          have e1 : Worker.holds t k = false := by simp [Worker.holds, hpc]
          rw [e1, holds_of_pc] at this
          simp only [List.count_cons, beq_iff_eq] at this ⊢
          simp only [Bool.false_eq_true, if_false, Nat.add_zero] at this
          omega
      · rename_i hq
        simp only [Option.some.injEq] at h
        subst h
        unfold threadFunc_afterWait
        split
        · refine ⟨rfl, NoNullThread.erase _ _, Or.inl ⟨rfl, fun t => ?_⟩⟩
          show w.pool.taskQueue_.count t + _ = w.pool.taskQueue_.count t + _
          congr 1
          exact countP_holds_idle _ i k .exited t hk (by simp [Worker.isBusy, hpc])
            (by simp [Worker.isBusy])
        · split
          · refine ⟨rfl, threadFunc_exit_noNull w i _, Or.inl ⟨rfl, fun t => ?_⟩⟩
            show w.pool.taskQueue_.count t + _ = w.pool.taskQueue_.count t + _
            congr 1
            exact countP_holds_idle _ i k .exited t hk (by simp [Worker.isBusy, hpc])
              (by simp [Worker.isBusy])
          · exact ⟨rfl, fun hn => hn, Or.inl ⟨rfl, fun t => rfl⟩⟩
    · -- executing
      rename_i task hpc
      simp only [Option.some.injEq] at h
      subst h
      have hp := threadFunc_finish_pool w i task now
      have hw := threadFunc_finish_workers w i task now
      have hcount : ∀ t, ((w.workers.modify (fun k => { k with lastTime := now }) i).modify
          (fun k => { k with pc := .loopTest }) i).countP (Worker.holds t) +
            (if task = t then 1 else 0) = w.workers.countP (Worker.holds t) := by
        intro t
        have := countP_holds_setPc (w.workers.modify (fun k => { k with lastTime := now }) i) i
          { k with lastTime := now } .loopTest t (by simp [hk])
        rw [countP_holds_setLastTime, holds_of_pc] at this
        simp only [Worker.holds, hpc, beq_iff_eq] at this
        simp only [Bool.false_eq_true, if_false, Nat.add_zero] at this
        omega
      refine ⟨?_, ?_, Or.inr ⟨task, ?_, rfl, fun t => ?_⟩⟩
      · show (Task.exec w task).tasks = w.tasks
        exact Task.exec_tasks w task
      · rw [hp]; exact fun hn => hn
      · unfold World.pending
        have := hcount task
        simp only [if_true] at this
        omega
      · unfold World.pending
        rw [hp, hw]
        have := hcount t
        simp only at this ⊢
        omega

end

section
variable {U : Type} {UEl : U → Type}

/-- The conversion to `size_t` keeps a non-negative `int`. -/
theorem toSizeT_eq (x : Int) (h0 : 0 ≤ x) (h1 : x ≤ 2147483647) : (toSizeT x : Int) = x := by
  unfold toSizeT
  rw [Int.emod_eq_of_lt h0 (by omega)]
  exact Int.toNat_of_nonneg h0

/-- The member `Result::setVal` on an object whose semaphore is live. -/
theorem setVal_post (r : Result U UEl) (v : Any U UEl) (h : r.sem_.isExit_ = false) :
    (r.setVal v).any_ = v ∧ (r.setVal v).isValid_ = r.isValid_ ∧
    (r.setVal v).sem_.isExit_ = false ∧
    (r.setVal v).sem_.resLimit_ = r.sem_.resLimit_ + 1 := by
  simp [Result.setVal, Semaphore.post, h]

/-- A step of a thread keeps the delivery invariant. -/
theorem DeliveryInv.worker (L0 : Nat) (ts : List Task) (w w1 : World U UEl) (k : Nat)
    (i : Nat) (timedOut : Bool) (now : Int)
    (hinv : DeliveryInv L0 ts w k) (h : threadFunc_step w i timedOut now = some w1) :
    DeliveryInv L0 ts w1 k := by
  obtain ⟨htasks, hreg, hcase⟩ := threadFunc_step_deliver w w1 i timedOut now h
  obtain ⟨hcap, _, _, _, _, hq⟩ := threadFunc_step_effect w w1 i timedOut now h
  have hqlen : w1.pool.taskQueue_.length ≤ w.pool.taskQueue_.length := by
    rcases hq with ⟨e, _⟩ | ⟨task, e, _⟩ | ⟨e0, e, _⟩ | ⟨e, _⟩
    · rw [e]
    · rw [e]; simp
    · rw [e]; simp
    · rw [e]
  have hfree : (w1.pool.taskQueue_.length : Int) + ts.length ≤
      w1.pool.taskQueMaxThreshHold_ + k := by
    have := hinv.free
    rw [hcap]; omega
  rcases hcase with ⟨hres, hpend⟩ | ⟨task, hp1, hres, hpend⟩
  · refine ⟨by rw [hres]; exact hinv.len, hreg hinv.reg, by rw [hcap]; exact hinv.cap, hfree,
      by rw [htasks]; exact hinv.own, ?_⟩
    intro j hj
    obtain ⟨t, r, h1, h2, h3, h4⟩ := hinv.done j hj
    exact ⟨t, r, h1, by rw [htasks]; exact h2, by rw [hres]; exact h3,
      by rw [htasks, hpend]; exact h4⟩
  · have hlen : w1.results.length = w.results.length := by
      rw [hres]; unfold Task.exec; split
      · rfl
      · simp
    refine ⟨by rw [hlen]; exact hinv.len, hreg hinv.reg, by rw [hcap]; exact hinv.cap, hfree,
      by rw [htasks]; exact hinv.own, ?_⟩
    intro j hj
    obtain ⟨t, r, h1, h2, h3, h4, h5, h6, h7, h8⟩ := hinv.done j hj
    have hpt := hpend t
    by_cases hta : task = t
    · subst hta
      refine ⟨task, r.setVal (w.tasks task).run, h1, by rw [htasks]; exact h2, ?_, ?_⟩
      · rw [hres]; unfold Task.exec; rw [h2]
        simp [h3]
      · obtain ⟨e1, e2, e3, e4⟩ := setVal_post r (w.tasks task).run h5
        rw [e1, e2, e3, e4, htasks]
        simp only [if_true] at hpt
        refine ⟨h4, rfl, by omega, by omega, fun _ => rfl⟩
    · refine ⟨t, r, h1, by rw [htasks]; exact h2, ?_, h4, h5, h6, ?_, by rw [htasks]; exact h8⟩
      · rw [hres]; unfold Task.exec
        split
        · exact h3
        · rename_i a ha
          have hne : a ≠ L0 + j := by
            intro e
            subst e
            have := (hinv.own task (L0 + j) ha).2 (by omega)
            simp only [Nat.add_sub_cancel_left] at this
            rw [h1] at this
            exact hta (Option.some.inj this).symm
          simp only
          rw [List.getElem?_modify_ne _ _ hne]
          exact h3
      · simp only [hta, if_false, Nat.add_zero] at hpt
        rw [hpt]; exact h7

end

section
variable {U : Type} {UEl : U → Type}

/-- An accepted task is pending once more. -/
theorem submitTask_pending (w w1 : World U UEl) (sp : Task) (a : Nat)
    (h : submitTask w sp = some (w1, a))
    (hacc : w.pool.taskQueue_.length < toSizeT w.pool.taskQueMaxThreshHold_) :
    w1.pool.taskQueue_.length = w.pool.taskQueue_.length + 1 ∧
    ∀ t, w1.pending t = w.pending t + (if sp = t then 1 else 0) := by
  obtain ⟨_, _, _, _, _, _, _, _, _, hcase⟩ := submitTask_effect w w1 sp a h
  rcases hcase with ⟨hn, _⟩ | ⟨_, hq, _, hc⟩
  · exact absurd hacc hn
  · refine ⟨by rw [hq]; simp, fun t => ?_⟩
    unfold World.pending
    rw [hq]
    have hw : w1.workers.countP (Worker.holds t) = w.workers.countP (Worker.holds t) := by
      rcases hc with ⟨_, _, _, hw⟩ | ⟨_, _, _, _, k, hk, hw⟩
      · rw [hw]
      · rw [hw]; simp [List.countP_append, List.countP_cons, Worker.holds, hk]
    rw [hw]
    simp only [List.count_append, List.count_cons, List.count_nil, beq_iff_eq]
    omega

/-- A call of `submitTask` with the next task keeps the delivery invariant. -/
theorem DeliveryInv.submit (L0 : Nat) (ts : List Task) (hnd : ts.Nodup) (w w1 : World U UEl)
    (k : Nat) (sp : Task) (a : Nat) (hinv : DeliveryInv L0 ts w k) (hk : ts[k]? = some sp)
    (h : submitTask w sp = some (w1, a)) :
    a = L0 + k ∧ DeliveryInv L0 ts w1 (k + 1) := by
  obtain ⟨hkl, hget⟩ := List.getElem?_eq_some.1 hk
  have hfree := hinv.free
  have hcapr := hinv.cap
  have hcap0 : 0 ≤ w.pool.taskQueMaxThreshHold_ := by omega
  have hacc : w.pool.taskQueue_.length < toSizeT w.pool.taskQueMaxThreshHold_ := by
    have := toSizeT_eq _ hcap0 hcapr
    omega
  obtain ⟨ha, hres, htasks, _, hcap, _, _, _, _, _⟩ := submitTask_effect w w1 sp a h
  obtain ⟨hql, hpend⟩ := submitTask_pending w w1 sp a h hacc
  have hlen := hinv.len
  refine ⟨by rw [ha, hlen], ?_, submitTask_keeps_noNull w w1 sp a hinv.reg h,
    by rw [hcap]; exact hcapr, by rw [hcap, hql]; push_cast; omega, ?_, ?_⟩
  · rw [hres]; simp [hlen]; omega
  · intro t b hb
    rw [htasks] at hb
    by_cases hts : t = sp
    · subst hts
      simp only [Function.update_same, Option.some.injEq] at hb
      subst hb
      rw [hlen]
      refine ⟨by omega, fun _ => ?_⟩
      simp only [Nat.add_sub_cancel_left]
      exact hk
    · rw [Function.update_noteq hts] at hb
      obtain ⟨h1, h2⟩ := hinv.own t b hb
      exact ⟨by omega, h2⟩
  · intro j hj
    by_cases hjk : j = k
    · subst hjk
      refine ⟨sp, { any_ := Any.empty, sem_ := Semaphore.new 0, task_ := sp, isValid_ := true },
        hk, ?_, ?_, rfl, rfl, le_refl _, ?_, ?_⟩
      · rw [htasks, Function.update_same, hlen]
      · rw [hres, ← hlen]
        simp only [hacc, decide_True]
        exact List.getElem?_concat_length _ _
      · rw [hpend sp]
        simp [Semaphore.new]
      · intro h0
        simp [Semaphore.new] at h0
    · have hj' : j < k := by omega
      obtain ⟨t, r, h1, h2, h3, h4⟩ := hinv.done j hj'
      have hne : t ≠ sp := by
        intro e
        subst e
        have := List.getElem?_inj (by omega : j < ts.length) hnd (h1.trans hk.symm)
        exact hjk this
      have hne' : ¬ sp = t := fun e => hne e.symm
      refine ⟨t, r, h1, ?_, ?_, ?_⟩
      · rw [htasks, Function.update_noteq hne]; exact h2
      · rw [hres, List.getElem?_append_left (by omega)]; exact h3
      · rw [htasks, Function.update_noteq hne, hpend t]
        simp only [hne', if_false, Nat.add_zero]
        exact h4

end

section
variable {U : Type} {UEl : U → Type}

/-- A call of `submitTask` keeps the value every task produces. -/
theorem submitTask_run_field (w w1 : World U UEl) (sp : Task) (a : Nat)
    (h : submitTask w sp = some (w1, a)) (t : Task) : (w1.tasks t).run = (w.tasks t).run := by
  obtain ⟨_, _, htasks, _⟩ := submitTask_effect w w1 sp a h
  rw [htasks]
  by_cases e : t = sp
  · subst e; simp
  · rw [Function.update_noteq e]

/-- The delivery invariant along a sequence of calls of `submitTask` and steps of threads. -/
theorem DeliveryInv.steps (L0 : Nat) (ts : List Task) (hnd : ts.Nodup) :
    ∀ (steps : List Step) (w w1 : World U UEl) (k : Nat) (addrs : List Nat),
      DeliveryInv L0 ts w k →
      (∃ rest, ts.drop k = steps.filterMap Step.submitted ++ rest) →
      (∀ s ∈ steps, s.isSubmit = true ∨ s.isWorker = true) →
      runResults w steps = some (w1, addrs) →
      DeliveryInv L0 ts w1 (k + (steps.filterMap Step.submitted).length) ∧
        addrs = List.range' (L0 + k) (steps.filterMap Step.submitted).length ∧
        ∀ t, (w1.tasks t).run = (w.tasks t).run := by
  intro steps
  induction steps with
  | nil =>
    intro w w1 k addrs hinv _ _ hrun
    simp only [runResults, Option.some.injEq, Prod.mk.injEq] at hrun
    obtain ⟨rfl, rfl⟩ := hrun
    exact ⟨hinv, rfl, fun _ => rfl⟩
  | cons s steps ih =>
    intro w w1 k addrs hinv hpre hkind hrun
    have hkind' : ∀ s ∈ steps, s.isSubmit = true ∨ s.isWorker = true :=
      fun s hs => hkind s (List.mem_cons_of_mem _ hs)
    cases s with
    | submitTask sp =>
      obtain ⟨rest, hrest⟩ := hpre
      simp only [List.filterMap_cons, Step.submitted, List.cons_append] at hrest
      have hk : ts[k]? = some sp := by
        have := congrArg (fun l => l[0]?) hrest
        simpa [List.getElem?_drop] using this
      have hdrop : ts.drop (k + 1) = steps.filterMap Step.submitted ++ rest := by
        have := congrArg List.tail hrest
        simpa [List.tail_drop] using this
      simp only [runResults, Option.bind_eq_some, Option.map_eq_some'] at hrun
      obtain ⟨⟨w2, a⟩, hsub, ⟨w3, as⟩, hrest', heq⟩ := hrun
      simp only [Prod.mk.injEq] at heq
      obtain ⟨rfl, rfl⟩ := heq
      obtain ⟨ha, hinv2⟩ := DeliveryInv.submit L0 ts hnd w w2 k sp a hinv hk hsub
      obtain ⟨h1, h2, h3⟩ := ih w2 w3 (k + 1) as hinv2 ⟨rest, hdrop⟩ hkind' hrest'
      simp only [List.filterMap_cons, Step.submitted, List.length_cons]
      refine ⟨by rw [show k + ((steps.filterMap Step.submitted).length + 1) =
          k + 1 + (steps.filterMap Step.submitted).length by omega]; exact h1, ?_, ?_⟩
      · rw [h2, ha, List.range'_succ, Nat.add_assoc]
      · intro t; rw [h3 t]; exact submitTask_run_field w w2 sp a hsub t
    | worker i timedOut now =>
      simp only [runResults, Option.bind_eq_some] at hrun
      obtain ⟨w2, hstep, hrest'⟩ := hrun
      simp only [step] at hstep
      have hinv2 := DeliveryInv.worker L0 ts w w2 k i timedOut now hinv hstep
      have hpre' : ∃ rest, ts.drop k = steps.filterMap Step.submitted ++ rest := by
        simpa [List.filterMap_cons, Step.submitted] using hpre
      obtain ⟨h1, h2, h3⟩ := ih w2 w1 k addrs hinv2 hpre' hkind' hrest'
      simp only [List.filterMap_cons, Step.submitted]
      refine ⟨h1, h2, fun t => ?_⟩
      rw [h3 t, (threadFunc_step_deliver w w2 i timedOut now hstep).1]
    | setMode m => rcases hkind _ (List.mem_cons_self _ _) with h | h <;> cases h
    | setTaskQueMaxThreshHold t => rcases hkind _ (List.mem_cons_self _ _) with h | h <;> cases h
    | setThreadSizeThreshHold t => rcases hkind _ (List.mem_cons_self _ _) with h | h <;> cases h
    | start m => rcases hkind _ (List.mem_cons_self _ _) with h | h <;> cases h
    | destroy => rcases hkind _ (List.mem_cons_self _ _) with h | h <;> cases h

/-- Running a sequence of steps piece by piece. -/
theorem run_append (w : World U UEl) (pre post : List Step) :
    run w (pre ++ post) = (run w pre).bind (fun w1 => run w1 post) := by
  induction pre generalizing w with
  | nil => simp [run]
  | cons s pre ih =>
    simp only [List.cons_append, run]
    cases step w s with
    | none => simp
    | some w1 => simp [ih]

/-- The worlds of `run` and `runResults` agree. -/
theorem runResults_of_run (steps : List Step) :
    ∀ (w w1 : World U UEl), run w steps = some w1 →
      ∃ addrs, runResults w steps = some (w1, addrs) := by
  induction steps with
  | nil =>
    intro w w1 h
    simp only [run, Option.some.injEq] at h
    subst h
    exact ⟨[], rfl⟩
  | cons s steps ih =>
    intro w w1 h
    simp only [run, Option.bind_eq_some] at h
    obtain ⟨w2, hs, hr⟩ := h
    obtain ⟨addrs, ha⟩ := ih w2 w1 hr
    cases s with
    | submitTask sp =>
      simp only [step, Option.map_eq_some'] at hs
      obtain ⟨⟨w3, a⟩, hs, rfl⟩ := hs
      exact ⟨a :: addrs, by simp [runResults, hs, ha]⟩
    | setMode m => exact ⟨addrs, by simp [runResults, hs, ha]⟩
    | setTaskQueMaxThreshHold t => exact ⟨addrs, by simp [runResults, hs, ha]⟩
    | setThreadSizeThreshHold t => exact ⟨addrs, by simp [runResults, hs, ha]⟩
    | start m => exact ⟨addrs, by simp [runResults, hs, ha]⟩
    | destroy => exact ⟨addrs, by simp [runResults, hs, ha]⟩
    | worker i timedOut now => exact ⟨addrs, by simp [runResults, hs, ha]⟩

/-- The delivery invariant before the first task is submitted. -/
theorem DeliveryInv.initial (w0 : World U UEl) (ts : List Task)
    (hreg : NoNullThread w0.pool.threads_)
    (hptr : ∀ t a, (w0.tasks t).result_ = some a → a < w0.results.length)
    (hcap : w0.pool.taskQueMaxThreshHold_ ≤ 2147483647)
    (hfree : (w0.pool.taskQueue_.length : Int) + ts.length ≤ w0.pool.taskQueMaxThreshHold_) :
    DeliveryInv w0.results.length ts w0 0 :=
  { len := rfl
    reg := hreg
    cap := hcap
    free := by simpa using hfree
    own := fun t a h => ⟨hptr t a h, fun hle => absurd (hptr t a h) (by omega)⟩
    done := fun j hj => absurd hj (by omega) }

end

section
variable {U : Type} {UEl : U → Type}

/-- The call `get()` on a valid `Result` whose semaphore has been posted returns `any_`. -/
theorem get_of_posted (w : World U UEl) (a : Nat) (r : Result U UEl)
    (hr : w.results[a]? = some r) (hv : r.isValid_ = true) (he : r.sem_.isExit_ = false)
    (hp : 1 ≤ r.sem_.resLimit_) : w.get a = some r.any_ := by
  have : r.sem_.resLimit_ > 0 := by omega
  simp [World.get, hr, Result.get, hv, Semaphore.wait, he, this]

/-- C1: let a schedule made of calls of `submitTask` and of steps of threads submit `N`
distinct tasks to a pool whose queue has at least `N` free slots (the registry holds no
null pointer, no task points to a `Result` that does not exist yet, the threshold is an
`int`). Then (1) every call of `submitTask` in the schedule is defined and returns a
valid `Result`; (2) when the schedule has run, the calls have returned `N` `Result`
objects, each valid, and as soon as the `i`-th task is neither queued nor held by a
thread (it has been dequeued and executed), `get()` on the `i`-th `Result` returns the
value the `run()` of the `i`-th task produces, whatever the order in which the threads
complete the tasks. -/
theorem results_delivered (w0 : World U UEl) (steps : List Step)
    (hreg : NoNullThread w0.pool.threads_)
    (hptr : ∀ t a, (w0.tasks t).result_ = some a → a < w0.results.length)
    (hcap : w0.pool.taskQueMaxThreshHold_ ≤ 2147483647)
    (hfree : (w0.pool.taskQueue_.length : Int) + (steps.filterMap Step.submitted).length ≤
      w0.pool.taskQueMaxThreshHold_)
    (hkind : ∀ s ∈ steps, s.isSubmit = true ∨ s.isWorker = true)
    (hnodup : (steps.filterMap Step.submitted).Nodup) :
    (∀ pre sp post wp, steps = pre ++ .submitTask sp :: post → run w0 pre = some wp →
      ∃ w1 a r, submitTask wp sp = some (w1, a) ∧ w1.results[a]? = some r ∧
        r.isValid_ = true) ∧
    (∀ w addrs, runResults w0 steps = some (w, addrs) →
      addrs.length = (steps.filterMap Step.submitted).length ∧
      ∀ (i a : Nat) (sp : Task), addrs[i]? = some a →
        (steps.filterMap Step.submitted)[i]? = some sp →
        (∃ r, w.results[a]? = some r ∧ r.isValid_ = true) ∧
        (w.pending sp = 0 → w.get a = some (w0.tasks sp).run)) := by
  have hinit := DeliveryInv.initial w0 (steps.filterMap Step.submitted) hreg hptr hcap hfree
  constructor
  · intro pre sp post wp hsplit hrun
    obtain ⟨addrs, hres⟩ := runResults_of_run pre w0 wp hrun
    have hts : steps.filterMap Step.submitted =
        pre.filterMap Step.submitted ++ sp :: post.filterMap Step.submitted := by
      rw [hsplit, List.filterMap_append, List.filterMap_cons]
      rfl
    have hkpre : ∀ s ∈ pre, s.isSubmit = true ∨ s.isWorker = true := by
      intro s hs
      exact hkind s (by rw [hsplit]; exact List.mem_append_left _ hs)
    obtain ⟨hinv, _, _⟩ := DeliveryInv.steps w0.results.length _ hnodup pre w0 wp 0 addrs hinit
      ⟨sp :: post.filterMap Step.submitted, by rw [List.drop_zero]; exact hts⟩ hkpre hres
    rw [Nat.zero_add] at hinv
    have hk : (steps.filterMap Step.submitted)[(pre.filterMap Step.submitted).length]? =
        some sp := by
      rw [hts, List.getElem?_append_right (le_refl _)]
      simp
    obtain ⟨w1, a, hsub, _⟩ := submitTask_defined wp sp hinv.reg
    obtain ⟨ha, hinv1⟩ := DeliveryInv.submit _ _ hnodup wp w1 _ sp a hinv hk hsub
    obtain ⟨t, r, _, _, hr, hv, _⟩ := hinv1.done (pre.filterMap Step.submitted).length
      (Nat.lt_succ_self _)
    exact ⟨w1, a, r, hsub, by rw [ha]; exact hr, hv⟩
  · intro w addrs hres
    obtain ⟨hinv, haddrs, hrunf⟩ := DeliveryInv.steps w0.results.length _ hnodup steps w0 w 0
      addrs hinit ⟨[], by simp⟩ hkind hres
    rw [Nat.zero_add] at hinv
    rw [Nat.add_zero] at haddrs
    refine ⟨by rw [haddrs]; simp, ?_⟩
    intro i a sp hia hisp
    have hi : i < (steps.filterMap Step.submitted).length :=
      (List.getElem?_eq_some.1 hisp).1
    have ha : a = w0.results.length + i := by
      rw [haddrs] at hia
      rw [List.getElem?_range' _ _ hi] at hia
      simp only [Nat.one_mul, Option.some.injEq] at hia
      omega
    obtain ⟨t, r, ht, _, hr, hv, he, _, hp, hany⟩ := hinv.done i hi
    rw [hisp] at ht
    have ht' : sp = t := Option.some.inj ht
    subst ht'
    subst ha
    refine ⟨⟨r, hr, hv⟩, fun hpend => ?_⟩
    rw [hpend] at hp
    have hp1 : 1 ≤ r.sem_.resLimit_ := by simpa using hp
    rw [get_of_posted w _ r hr hv he hp1, hany hp1, hrunf sp]

end

/-- Witness of C1: on `demoStartedTwo` the schedule `demoScheduleTwo` submits tasks 7 and 8,
which two threads complete in the opposite order; the two `Result` objects are at
addresses 0 and 1, both valid, and `get()` returns 70 on the first and 80 on the second,
the values of tasks 7 and 8. -/
theorem results_delivered_witness :
    ∃ w, runResults demoStartedTwo demoScheduleTwo = some (w, [0, 1]) ∧
      ((∃ r, w.results[0]? = some r ∧ r.isValid_ = true) ∧
        (w.pending 7 = 0 → w.get 0 = some (Any.of .unsignedLongLong (70 : Nat)))) ∧
      ((∃ r, w.results[1]? = some r ∧ r.isValid_ = true) ∧
        (w.pending 8 = 0 → w.get 1 = some (Any.of .unsignedLongLong (80 : Nat)))) ∧
      w.pending 7 = 0 ∧ w.pending 8 = 0 :=
  ⟨_, rfl,
    ((results_delivered demoStartedTwo demoScheduleTwo (by unfold NoNullThread; decide)
      (fun t a h => by cases h) (by decide) (by decide) (by decide) (by decide)).2 _ _ rfl).2
        0 0 7 rfl rfl,
    ((results_delivered demoStartedTwo demoScheduleTwo (by unfold NoNullThread; decide)
      (fun t a h => by cases h) (by decide) (by decide) (by decide) (by decide)).2 _ _ rfl).2
        1 1 8 rfl rfl,
    rfl, rfl⟩

end TP
